import Mathlib

/-
Verification of the py-hotstart core against its Rust sources.

Shallow embedding conventions:
* pure Rust functions become Lean functions over the same data, with machine
  integers modelled as Nat / Int plus explicit range side conditions;
* fallible Rust code (`Result`, `Option`) returns `Option` / `Except String`;
* operating-system interaction (waitpid results, sendmsg outcomes, poll wakes,
  filesystem contents) is passed in explicitly as oracle data, so every
  function stays executable.

The file is organised as: all definitions first, then all lemmas and theorems.
-/

set_option maxHeartbeats 1000000
set_option maxRecDepth 100000

namespace PyHotstart

/-! ## Rust decimal integer parsing and rendering

Models `str::parse::<u32>` / `str::parse::<i32>` (an optional leading sign
followed by one or more decimal digits, rejecting out-of-range values) and the
`Display` rendering of unsigned / signed integers. Used by `ChildId::from_str`
(src/hsserver/supervisor.rs, src/interpreter.rs) and by the pid-file code
(src/hsserver/daemon.rs). -/

def U32_MOD : Nat := 4294967296

def I32_HALF : Nat := 2147483648

/-- Digit-string value: `none` unless the char list is nonempty and all digits. -/
def parseDigits (cs : List Char) : Option Nat :=
  if cs = [] then none
  else if cs.all Char.isDigit then
    some (cs.foldl (fun a c => a * 10 + (c.toNat - 48)) 0)
  else none

/-- Model of Rust `str::parse::<u32>` on chars: optional leading `+`, digits, range check. -/
def rustParseU32Chars (cs : List Char) : Option Nat :=
  let cs' := match cs with
             | c :: rest => if c = '+' then rest else cs
             | [] => cs
  (parseDigits cs').bind (fun n => if n < U32_MOD then some n else none)

def rustParseU32 (s : String) : Option Nat := rustParseU32Chars s.toList

/-- Model of Rust `str::parse::<i32>` on chars: optional leading sign, digits, range check. -/
def rustParseI32Chars (cs : List Char) : Option Int :=
  match cs with
  | c :: rest =>
      if c = '-' then
        (parseDigits rest).bind (fun n => if n ≤ I32_HALF then some (-(n : Int)) else none)
      else if c = '+' then
        (parseDigits rest).bind (fun n => if n < I32_HALF then some ((n : Int)) else none)
      else
        (parseDigits (c :: rest)).bind (fun n => if n < I32_HALF then some ((n : Int)) else none)
  | [] => none

def rustParseI32 (s : String) : Option Int := rustParseI32Chars s.toList

/-- Model of Rust `str::trim`: drop whitespace from both ends. -/
def trimChars (cs : List Char) : List Char :=
  ((cs.dropWhile Char.isWhitespace).reverse.dropWhile Char.isWhitespace).reverse

def trimString (s : String) : String := String.mk (trimChars s.toList)

/-- Model of Rust `str::starts_with`. -/
def startsWithStr (s pre : String) : Bool := pre.toList.isPrefixOf s.toList

/-- Model of Rust `str::strip_prefix(p).unwrap()` for a known prefix length. -/
def stringDrop (s : String) (n : Nat) : String := String.mk (s.toList.drop n)

/-- Base-10 digits, least significant first, by fuel-bounded recursion (the
fuel makes the function reduce inside the kernel). -/
def natDigitsGo : Nat → Nat → List Nat
  | 0, _ => []
  | _ + 1, 0 => []
  | fuel + 1, n + 1 => (n + 1) % 10 :: natDigitsGo fuel ((n + 1) / 10)

/-- Decimal rendering of a natural number (Rust `Display` for unsigned ints). -/
def natDecimal (n : Nat) : List Char :=
  if n = 0 then ['0']
  else ((natDigitsGo n n).map (fun d => Char.ofNat (48 + d))).reverse

/-- Decimal rendering of an integer (Rust `Display` for signed ints). -/
def intDecimal (i : Int) : List Char :=
  if i < 0 then '-' :: natDecimal i.natAbs else natDecimal i.natAbs

def intToString (i : Int) : String := String.mk (intDecimal i)

/-! ## ChildId (src/hsserver/supervisor.rs lines 22-72, src/interpreter.rs lines 25-72)

`ChildId` is a pair of a `u32` sequence number and an OS pid (`pid_t`, an
`i32`).  `Display` renders `"({id},{pid})"`; `FromStr` strips `'('`, strips
`')'`, splits once at `','` and parses the two components with the Rust
integer parsers. -/

structure ChildId where
  id : Nat
  pid : Int
deriving DecidableEq

/-- Rust `Display for ChildId`: `write!(f, "({},{})", self.id, self.pid.as_raw())`. -/
def childIdToChars (c : ChildId) : List Char :=
  '(' :: (natDecimal c.id ++ ',' :: (intDecimal c.pid ++ [')']))

def childIdToString (c : ChildId) : String := String.mk (childIdToChars c)

/-- Model of `str::strip_prefix` for a single char. -/
def stripLeading (c : Char) : List Char → Option (List Char)
  | [] => none
  | x :: xs => if x = c then some xs else none

/-- Model of `str::strip_suffix` for a single char. -/
def stripTrailing (c : Char) (xs : List Char) : Option (List Char) :=
  match xs.reverse with
  | [] => none
  | y :: ys => if y = c then some ys.reverse else none

/-- Model of `str::split_once`: split at the first occurrence of `c`. -/
def splitOnce (c : Char) : List Char → Option (List Char × List Char)
  | [] => none
  | x :: xs =>
      if x = c then some ([], xs)
      else (splitOnce c xs).map (fun p => (x :: p.1, p.2))

/-- The `strip_prefix('(').and_then(strip_suffix(')')).and_then(split_once(','))` pipeline. -/
def childIdSplit (cs : List Char) : Option (List Char × List Char) :=
  (stripLeading '(' cs).bind fun cs1 =>
  (stripTrailing ')' cs1).bind fun cs2 =>
  splitOnce ',' cs2

/-- Model of `ChildId::from_str`. -/
def childIdFromChars (cs : List Char) : Option ChildId :=
  (childIdSplit cs).bind fun xy =>
  (rustParseU32Chars xy.1).bind fun i =>
  (rustParseI32Chars xy.2).map fun p => ChildId.mk i p

def childIdFromStr (s : String) : Option ChildId := childIdFromChars s.toList

/-! ## Exit-info ring (src/hsserver/supervisor.rs lines 192-232)

`ExitInfoRecord` keeps two `Vec`s of length `limit`, zero-initialised
(`vec![0; limit]`), a `start` index and a `count`.  `set` appends while
`count < limit` and otherwise overwrites at `start` and advances `start`.
`get` scans `child_ids` for the first index holding `child_id` and returns
the exit code at the same index; we model the indexed scan as a scan over
the zip of the two vectors, which agrees with the source whenever the two
vectors have equal length (an invariant of the structure). -/

structure ExitInfoRecord where
  child_ids : List Nat
  exit_codes : List Int
  limit : Nat
  start : Nat
  count : Nat
deriving DecidableEq

def ExitInfoRecord.new (limit : Nat) : ExitInfoRecord :=
  { child_ids := List.replicate limit 0
    exit_codes := List.replicate limit 0
    limit := limit
    start := 0
    count := 0 }

def ExitInfoRecord.set (r : ExitInfoRecord) (child_id : Nat) (exit_code : Int) : ExitInfoRecord :=
  if r.count < r.limit then
    { r with child_ids := r.child_ids.set r.count child_id
             exit_codes := r.exit_codes.set r.count exit_code
             count := r.count + 1 }
  else
    { r with child_ids := r.child_ids.set r.start child_id
             exit_codes := r.exit_codes.set r.start exit_code
             start := (r.start + 1) % r.limit }

def ExitInfoRecord.get (r : ExitInfoRecord) (child_id : Nat) : Option Int :=
  ((r.child_ids.zip r.exit_codes).find? (fun e => e.1 == child_id)).map (fun e => e.2)

/-- Fold a list of `(seq, code)` records into the ring with `set`. -/
def ExitInfoRecord.setMany (r : ExitInfoRecord) (ws : List (Nat × Int)) : ExitInfoRecord :=
  ws.foldl (fun r w => r.set w.1 w.2) r

/-- Reference slot contents: the last write whose position `k % L` equals `j`
(positions are assigned to writes in order), defaulting to the zero
initialisation `(0, 0)`. -/
def slotModelGo (L j : Nat) : Nat → List (Nat × Int) → (Nat × Int) → (Nat × Int)
  | _, [], acc => acc
  | k, w :: ws, acc => slotModelGo L j (k + 1) ws (if k % L = j then w else acc)

def slotModel (L : Nat) (ws : List (Nat × Int)) (j : Nat) : Nat × Int :=
  slotModelGo L j 0 ws (0, 0)

/-! ## Supervisor (src/hsserver/supervisor.rs lines 74-190)

State: `next_child_id`, the running-children map `os_pid → seq` (a `HashMap`,
modelled as an association list with distinct keys), and the exit-info ring.
The OS wait primitive is modelled by a list of `WaitStatus` results consumed
in order; `StillAlive`, other status changes and `ECHILD` end the wait loop. -/

inductive WaitStatus
  | exited (pid : Int) (code : Int)
  | signaled (pid : Int) (sig : Int)
  | stillAlive
  | otherChange
  | echild
deriving DecidableEq

def lookupPid (m : List (Int × Nat)) (p : Int) : Option Nat :=
  (m.find? (fun e => e.1 == p)).map (fun e => e.2)

def removePid (m : List (Int × Nat)) (p : Int) : List (Int × Nat) :=
  m.filter (fun e => !(e.1 == p))

def insertPid (m : List (Int × Nat)) (p : Int) (s : Nat) : List (Int × Nat) :=
  (p, s) :: removePid m p

structure Supervisor where
  next_child_id : Nat
  running_children : List (Int × Nat)
  exit_info : ExitInfoRecord
deriving DecidableEq

def Supervisor.new : Supervisor :=
  { next_child_id := 1, running_children := [], exit_info := ExitInfoRecord.new 128 }

/-- `Supervisor::child_exit`: remove the reaped pid from the map and record the
exit code under its seq; error on an unrecognized pid.  In addition to the
source's `Result<()>` we return the seq that was recorded, for use in
specifications. -/
def Supervisor.child_exit (s : Supervisor) (pid : Int) (exit_code : Int) :
    Except String (Supervisor × Nat) :=
  match lookupPid s.running_children pid with
  | none => Except.error "unrecognized pid"
  | some i =>
      Except.ok
        ({ s with running_children := removePid s.running_children pid
                  exit_info := s.exit_info.set i exit_code }, i)

/-- `Supervisor::wait`'s loop over successive `waitpid` results.  Returns the
final state, the list of performed reaps `(pid, seq, recorded code)` (ghost
output for specifications) and the propagated `Result`. -/
def Supervisor.waitGo (s : Supervisor) :
    List WaitStatus → Supervisor × List (Int × Nat × Int) × Except String Unit
  | [] => (s, [], Except.ok ())
  | WaitStatus.stillAlive :: _ => (s, [], Except.ok ())
  | WaitStatus.otherChange :: _ => (s, [], Except.ok ())
  | WaitStatus.echild :: _ => (s, [], Except.ok ())
  | WaitStatus.exited pid code :: rest =>
      match s.child_exit pid code with
      | Except.error e => (s, [], Except.error e)
      | Except.ok (s', i) =>
          let r := s'.waitGo rest
          (r.1, (pid, i, code) :: r.2.1, r.2.2)
  | WaitStatus.signaled pid sig :: rest =>
      match s.child_exit pid (128 + sig) with
      | Except.error e => (s, [], Except.error e)
      | Except.ok (s', i) =>
          let r := s'.waitGo rest
          (r.1, (pid, i, 128 + sig) :: r.2.1, r.2.2)

/-- Behaviour of one child under `kill`: at which WNOHANG poll (if any) the OS
reports its exit after SIGTERM, with which status; and the status the blocking
wait reports after SIGKILL. -/
structure ChildBehavior where
  exitPoll : Option Nat
  exitStatus : WaitStatus
  killStatus : WaitStatus

/-- Results of one `waitpid(Some(pid), WNOHANG)` call inside the `kill` poll
loop at poll number `i`: once the child has been reaped the OS answers
`ECHILD`; before the reported exit it answers `StillAlive`; at the reported
exit it delivers the status and then `ECHILD`. -/
def pollEvents (s : Supervisor) (b : ChildBehavior) (cid : ChildId) (i : Nat) : List WaitStatus :=
  if (lookupPid s.running_children cid.pid).isSome then
    match b.exitPoll with
    | some t => if t ≤ i then [b.exitStatus, WaitStatus.echild] else [WaitStatus.stillAlive]
    | none => [WaitStatus.stillAlive]
  else [WaitStatus.echild]

/-- The 2-second / 20-ms poll loop of `Supervisor::kill`, discretised into 100
polls (the loop only sleeps 20 ms on polls that have not yet observed the
exit; once the exit is recorded every further iteration is a no-op, so the
observable effect of the real-time loop equals 100 polls). -/
def killPollLoop (b : ChildBehavior) (cid : ChildId) :
    Supervisor → Nat → Nat → Int → Supervisor × Except String Int
  | s, 0, _, status => (s, Except.ok status)
  | s, fuel + 1, i, status =>
      let r := s.waitGo (pollEvents s b cid i)
      match r.2.2 with
      | Except.error e => (r.1, Except.error e)
      | Except.ok _ =>
          match r.1.exit_info.get cid.id with
          | some code => killPollLoop b cid r.1 fuel (i + 1) code
          | none => killPollLoop b cid r.1 fuel (i + 1) status

structure KillOutcome where
  state : Supervisor
  sigterm : Bool
  sigkill : Bool
  result : Except String Int

/-- `Supervisor::kill` (src/hsserver/supervisor.rs lines 117-144).  The
`sigterm` / `sigkill` fields record which signals were delivered. -/
def Supervisor.kill (s : Supervisor) (cid : ChildId) (b : ChildBehavior) : KillOutcome :=
  if (lookupPid s.running_children cid.pid).isSome then
    let r := killPollLoop b cid s 100 0 (-1)
    match r.2 with
    | Except.error e => ⟨r.1, true, false, Except.error e⟩
    | Except.ok status =>
        if status = -1 then
          let r2 := r.1.waitGo [b.killStatus, WaitStatus.echild]
          match r2.2.2 with
          | Except.error e => ⟨r2.1, true, true, Except.error e⟩
          | Except.ok _ =>
              ⟨r2.1, true, true,
                match r2.1.exit_info.get cid.id with
                | some code => Except.ok code
                | none => Except.error "missing exit info"⟩
        else
          ⟨r.1, true, false,
            match r.1.exit_info.get cid.id with
            | some code => Except.ok code
            | none => Except.error "missing exit info"⟩
  else
    ⟨s, false, false,
      match s.exit_info.get cid.id with
      | some code => Except.ok code
      | none => Except.error "missing exit info"⟩

/-- `Supervisor::get_exit_code`: return the recorded code if present, else
block-wait on the pid (OS results supplied as `evs`) and re-check. -/
def Supervisor.get_exit_code (s : Supervisor) (cid : ChildId) (evs : List WaitStatus) :
    Supervisor × Except String Int :=
  match s.exit_info.get cid.id with
  | some code => (s, Except.ok code)
  | none =>
      let r := s.waitGo evs
      match r.2.2 with
      | Except.error e => (r.1, Except.error e)
      | Except.ok _ =>
          match r.1.exit_info.get cid.id with
          | some code => (r.1, Except.ok code)
          | none => (r.1, Except.error "could not get exit code for child")

/-- The parent half of `Supervisor::spawn_interpreter`: allocate the next seq,
insert the forked child's pid into the running map. -/
def Supervisor.spawnModel (s : Supervisor) (pid : Int) : Supervisor × ChildId :=
  ({ next_child_id := s.next_child_id + 1
     running_children := insertPid s.running_children pid s.next_child_id
     exit_info := s.exit_info }, ChildId.mk s.next_child_id pid)

/-- One supervisor-visible step: a successful spawn (the forked pid is the
oracle) or a wait call with its list of OS results. -/
inductive SupOp
  | spawnOp (pid : Int)
  | waitOp (evs : List WaitStatus)

/-- Execute a trace of supervisor steps, collecting all performed reaps. -/
def execOps (s : Supervisor) : List SupOp → Supervisor × List (Int × Nat × Int)
  | [] => (s, [])
  | SupOp.spawnOp p :: rest => execOps (s.spawnModel p).1 rest
  | SupOp.waitOp evs :: rest =>
      let r := s.waitGo evs
      let r2 := execOps r.1 rest
      (r2.1, r.2.1 ++ r2.2)

def spawnPids : List SupOp → List Int
  | [] => []
  | SupOp.spawnOp p :: rest => p :: spawnPids rest
  | SupOp.waitOp _ :: rest => spawnPids rest

/-- The code recorded for a wait status that reaps `pid`: the status integer
for a natural exit, `128 + signal` for death by signal. -/
def reapsWith (ev : WaitStatus) (pid : Int) : Option Int :=
  match ev with
  | WaitStatus.exited p c => if p = pid then some c else none
  | WaitStatus.signaled p g => if p = pid then some (128 + g) else none
  | _ => none

/-! ## Server (src/hsserver.rs lines 24-272; lines 125-152 of
src/hsserver/server.rs are the same handler text)

`ServerState` holds the optional hot-spare interpreter and the prelude.  The
outcomes of `sendmsg` and of `spawn_interpreter`, and the `waitpid` result
used by `EXITCODE`, are oracle inputs carried by the connection.  Handlers
additionally return the list of file-descriptor events they performed (fds
sent as ancillary data, server-side handles dropped) and the list of byte
strings written with `write_all`. -/

structure InterpreterState where
  pid : Int
  pty_master_fd : Nat
deriving DecidableEq

structure ServerSt where
  current_interpreter : Option InterpreterState
  prelude_code : Option String
deriving DecidableEq

inductive FdEvent
  | sentFds (fds : List Nat)
  | droppedFd (fd : Nat)
deriving DecidableEq

/-- `ServerState::handle_run_request` (src/hsserver.rs lines 123-150): take the
interpreter out of the slot, `sendmsg` the response with the pty fd attached;
on success spawn a replacement; the local handle is dropped on scope exit in
every taken branch (after the send outcome either way). -/
def handle_run_request (st : ServerSt) (sendResult : Except String Nat)
    (spawnResult : Except String InterpreterState) :
    ServerSt × List FdEvent × List String × Except String Unit :=
  match st.current_interpreter with
  | some interp =>
      let st1 : ServerSt := { st with current_interpreter := none }
      match sendResult with
      | Except.error _ =>
          (st1, [FdEvent.droppedFd interp.pty_master_fd], [],
            Except.error "Failed to sendmsg")
      | Except.ok _ =>
          match spawnResult with
          | Except.error e =>
              (st1, [FdEvent.sentFds [interp.pty_master_fd],
                     FdEvent.droppedFd interp.pty_master_fd], [],
                Except.error e)
          | Except.ok fresh =>
              ({ st1 with current_interpreter := some fresh },
                [FdEvent.sentFds [interp.pty_master_fd],
                 FdEvent.droppedFd interp.pty_master_fd], [],
                Except.ok ())
  | none => (st, [], ["ERROR"], Except.ok ())

/-- `ServerState::handle_initialize` (src/hsserver.rs lines 113-121):
`graceful_kill` the old interpreter (its `Result` is `Ok` on every path of
`graceful_kill` and it does not touch server state), store the prelude, spawn. -/
def handle_initialize (st : ServerSt) (prelude : String)
    (spawnResult : Except String InterpreterState) : ServerSt × Except String Unit :=
  let st1 : ServerSt := { st with prelude_code := some prelude }
  match spawnResult with
  | Except.error e => (st1, Except.error e)
  | Except.ok fresh => ({ st1 with current_interpreter := some fresh }, Except.ok ())

/-- `ServerState::handle_exitcode_request` (src/hsserver.rs lines 152-165):
parse the pid as an `i32`, `waitpid` on it (result supplied as the oracle),
answer with the exit code, `128 + signal` for a signal death. -/
def handle_exitcode_request (st : ServerSt) (pid_str : String) (waitResult : WaitStatus) :
    ServerSt × List String × Except String Unit :=
  match rustParseI32 (trimString pid_str) with
  | none => (st, [], Except.error "invalid digit found in string")
  | some _pid =>
      match waitResult with
      | WaitStatus.exited _ code => (st, [intToString code ++ "\n"], Except.ok ())
      | WaitStatus.signaled _ sig => (st, [intToString (128 + sig) ++ "\n"], Except.ok ())
      | WaitStatus.echild => (st, [], Except.error "Error waiting for pid")
      | _ => (st, [], Except.error "Process was not exited or signaled")

/-- One accepted connection with its oracle data: how many bytes the request
read returned, the request text, and the OS outcomes the handlers consume. -/
structure Conn where
  readLen : Nat
  request : String
  sendResult : Except String Nat
  spawnResult : Except String InterpreterState
  waitResult : WaitStatus

/-- `ServerState::handle` (src/hsserver.rs lines 200-225): read the request,
trim it, dispatch on the textual prefix; unknown commands are answered with
the bytes `"UNKNOWN"`.  Errors bubble up with the outermost `context` string
(which is what `format!("{}", err)` prints for an `anyhow` error). -/
def handleReq (st : ServerSt) (c : Conn) :
    ServerSt × List FdEvent × List String × Except String Unit :=
  if c.readLen = 0 then (st, [], [], Except.ok ())
  else
    let req := trimString c.request
    if startsWithStr req "INIT " then
      let prelude := stringDrop req 5
      let r := handle_initialize st prelude c.spawnResult
      match r.2 with
      | Except.error _ => (r.1, [], [], Except.error "Failed to initialize with new prelude")
      | Except.ok _ => (r.1, [], ["OK"], Except.ok ())
    else if req = "RUN" then
      let r := handle_run_request st c.sendResult c.spawnResult
      match r.2.2.2 with
      | Except.error _ => (r.1, r.2.1, r.2.2.1, Except.error "Failed to handle RUN request")
      | Except.ok _ => (r.1, r.2.1, r.2.2.1, Except.ok ())
    else if startsWithStr req "EXITCODE " then
      let pid_str := stringDrop req 9
      let r := handle_exitcode_request st pid_str c.waitResult
      match r.2.2 with
      | Except.error _ => (r.1, [], r.2.1, Except.error "Failed to handle EXITCODE request")
      | Except.ok _ => (r.1, [], r.2.1, Except.ok ())
    else (st, [], ["UNKNOWN"], Except.ok ())

/-- One iteration of `ServerState::run`'s accept loop body (src/hsserver.rs
lines 184-196): on a handler error, format `"ERROR: {err}\n"` and write it
back (ignoring write failures); either way the loop continues. -/
def handleConn (st : ServerSt) (c : Conn) : ServerSt × List FdEvent × List String :=
  let r := handleReq st c
  match r.2.2.2 with
  | Except.error e => (r.1, r.2.1, r.2.2.1 ++ ["ERROR: " ++ e ++ "\n"])
  | Except.ok _ => (r.1, r.2.1, r.2.2.1)

/-- `ServerState::run`'s accept loop over a list of accepted connections; it
never exits, so it consumes every connection and produces one (fd events,
writes) record per connection. -/
def runLoop (st : ServerSt) : List Conn → ServerSt × List (List FdEvent × List String)
  | [] => (st, [])
  | c :: cs =>
      let r := handleConn st c
      let r2 := runLoop r.1 cs
      (r2.1, (r.2.1, r.2.2) :: r2.2)

/-! ## Terminal proxy (src/hsclient/proxy.rs lines 183-234)

The `do_proxy` forwarding loop polls the signalfd, the PTY master and stdin.
Each `PollWake` is one `poll` return: readiness flags plus the byte counts
the subsequent reads would return (0 = EOF).  Once the code has closed the
PTY fd, `poll` reports `POLLNVAL` instead of `POLLIN` for it, so the PTY
branch is skipped; writing to the closed fd fails and exits the loop with an
error. -/

structure PollWake where
  signalReady : Bool
  ptyReady : Bool
  stdinReady : Bool
  ptyReadLen : Nat
  stdinReadLen : Nat

inductive PAct
  | syncWinsize
  | readPty (n : Nat)
  | writeStdout (n : Nat)
  | readStdin (n : Nat)
  | closePtyFd
  | writePty (n : Nat)
deriving DecidableEq

inductive ProxyEnd
  | ptyEof
  | ranOut
  | ioError
deriving DecidableEq

/-- The proxy loop body, iterated over the supplied poll wakes; returns the
performed actions and how the loop ended (`ranOut` when the wake list is
exhausted with the loop still running). -/
def proxyGo : Bool → List PollWake → List PAct × ProxyEnd
  | _, [] => ([], ProxyEnd.ranOut)
  | ptyClosed, w :: rest =>
      let sigActs := if w.signalReady then [PAct.syncWinsize] else []
      let ptyIn := w.ptyReady && !ptyClosed
      if ptyIn && w.ptyReadLen == 0 then
        (sigActs ++ [PAct.readPty 0], ProxyEnd.ptyEof)
      else
        let ptyActs :=
          if ptyIn then [PAct.readPty w.ptyReadLen, PAct.writeStdout w.ptyReadLen] else []
        if w.stdinReady then
          if w.stdinReadLen == 0 then
            let r := proxyGo true rest
            (sigActs ++ ptyActs ++ [PAct.readStdin 0, PAct.closePtyFd] ++ r.1, r.2)
          else if ptyClosed then
            (sigActs ++ ptyActs ++ [PAct.readStdin w.stdinReadLen], ProxyEnd.ioError)
          else
            let r := proxyGo ptyClosed rest
            (sigActs ++ ptyActs ++
              [PAct.readStdin w.stdinReadLen, PAct.writePty w.stdinReadLen] ++ r.1, r.2)
        else
          let r := proxyGo ptyClosed rest
          (sigActs ++ ptyActs ++ r.1, r.2)

def do_proxy_loop (wakes : List PollWake) : List PAct × ProxyEnd :=
  proxyGo false wakes

/-! ## Daemon pid-file guard (src/hsserver/daemon.rs lines 89-153)

The filesystem is an association list `path → contents`; `hard_link` fails if
the destination exists; `remove_file` fails if the path is absent.  One
`PidFileGuard::new` call is the sequence of its five filesystem-touching
steps; each step is atomic, so interleavings of two calls are merges of the
two step sequences. -/

deriving instance DecidableEq for Except

structure FS where
  files : List (String × String)
deriving DecidableEq

def FS.lookupPath (fs : FS) (p : String) : Option String :=
  (fs.files.find? (fun e => e.1 == p)).map (fun e => e.2)

def FS.pathPresent (fs : FS) (p : String) : Bool :=
  (fs.lookupPath p).isSome

def FS.writeFile (fs : FS) (p : String) (c : String) : FS :=
  ⟨(p, c) :: fs.files.filter (fun e => !(e.1 == p))⟩

def FS.removeFile (fs : FS) (p : String) : Option FS :=
  if fs.pathPresent p then some ⟨fs.files.filter (fun e => !(e.1 == p))⟩ else none

def FS.hardLink (fs : FS) (src dst : String) : Option FS :=
  if fs.pathPresent dst then none
  else (fs.lookupPath src).map (fun c => fs.writeFile dst c)

/-- Model of `PathBuf::with_extension`: replace everything after the last `.`
of the final path component (or append the extension if there is none). -/
def withExtension (p : String) (ext : String) : String :=
  let rev := p.toList.reverse
  let fnameRev := rev.takeWhile (fun c => !(c == '/'))
  let stemRev := if fnameRev.any (fun c => c == '.')
                 then (rev.dropWhile (fun c => !(c == '.'))).drop 1
                 else rev
  String.mk (stemRev.reverse ++ ('.' :: ext.toList))

/-- `writeln!(file, "{}", pid)`. -/
def pidfileContents (pid : Int) : String := intToString pid ++ "\n"

def tmpPidPath (path : String) (pid : Int) : String :=
  withExtension path ("pid." ++ intToString pid)

/-- The five filesystem-touching steps of `PidFileGuard::new`:
`readPath` is `test`'s existence check plus `read_to_string` plus the
liveness decision; `maybeRemove` is `test`'s stale `remove_file`; then the
temp-file write (with fsync), the `hard_link` publish, and the temp unlink. -/
inductive AcqStep
  | readPath
  | maybeRemove
  | writeTmp
  | linkStep
  | unlinkTmp
deriving DecidableEq

structure AcqLocal where
  pid : Int
  path : String
  decision : Option Bool
  linkOk : Option Bool
  result : Option (Except String Unit)
deriving DecidableEq

def AcqLocal.init (pid : Int) (path : String) : AcqLocal :=
  { pid := pid, path := path, decision := none, linkOk := none, result := none }

/-- Execute one atomic step of `PidFileGuard::new` against the shared
filesystem.  A step is a no-op once the call has finished (`result` set). -/
def acqStep (alive : Int → Bool) (fs : FS) (l : AcqLocal) : AcqStep → FS × AcqLocal
  | AcqStep.readPath =>
      if l.result.isSome then (fs, l) else
      match fs.lookupPath l.path with
      | none => (fs, { l with decision := some false })
      | some contents =>
          match rustParseI32 (trimString contents) with
          | some other =>
              if alive other then
                (fs, { l with result := some (Except.error "file exists for running process") })
              else (fs, { l with decision := some true })
          | none => (fs, { l with decision := some true })
  | AcqStep.maybeRemove =>
      if l.result.isSome then (fs, l) else
      if l.decision = some true then
        match fs.removeFile l.path with
        | some fs' => (fs', l)
        | none => (fs, { l with result := some (Except.error "remove_file failed") })
      else (fs, l)
  | AcqStep.writeTmp =>
      if l.result.isSome then (fs, l) else
      (fs.writeFile (tmpPidPath l.path l.pid) (pidfileContents l.pid), l)
  | AcqStep.linkStep =>
      if l.result.isSome then (fs, l) else
      match fs.hardLink (tmpPidPath l.path l.pid) l.path with
      | some fs' => (fs', { l with linkOk := some true })
      | none => (fs, { l with linkOk := some false })
  | AcqStep.unlinkTmp =>
      if l.result.isSome then (fs, l) else
      match fs.removeFile (tmpPidPath l.path l.pid) with
      | some fs' =>
          (fs', { l with result := some (if l.linkOk = some true then Except.ok ()
                                         else Except.error "hard_link error") })
      | none => (fs, { l with result := some (Except.error "remove tmp failed") })

def acqProgram : List AcqStep :=
  [AcqStep.readPath, AcqStep.maybeRemove, AcqStep.writeTmp, AcqStep.linkStep, AcqStep.unlinkTmp]

/-- Run one `PidFileGuard::new` call to completion with no interference. -/
def runAcq (alive : Int → Bool) (fs : FS) (pid : Int) (path : String) : FS × AcqLocal :=
  acqProgram.foldl (fun r st => acqStep alive r.1 r.2 st) (fs, AcqLocal.init pid path)

/-- Execute an interleaved trace of steps of two `PidFileGuard::new` calls;
`false` tags the first caller, `true` the second. -/
def execTagged (alive : Int → Bool) :
    FS × AcqLocal × AcqLocal → List (Bool × AcqStep) → FS × AcqLocal × AcqLocal
  | r, [] => r
  | (fs, lA, lB), (false, st) :: rest =>
      let r := acqStep alive fs lA st
      execTagged alive (r.1, r.2, lB) rest
  | (fs, lA, lB), (true, st) :: rest =>
      let r := acqStep alive fs lB st
      execTagged alive (r.1, lA, r.2) rest

/-- All merges (interleavings) of two lists, keeping each list's order;
fuel-bounded so that the kernel can evaluate it. -/
def mergesGo : Nat → List α → List α → List (List α)
  | 0, _, _ => []
  | _ + 1, [], ys => [ys]
  | _ + 1, x :: xs, [] => [x :: xs]
  | fuel + 1, x :: xs, y :: ys =>
      ((mergesGo fuel xs (y :: ys)).map (fun t => x :: t)) ++
      ((mergesGo fuel (x :: xs) ys).map (fun t => y :: t))

def merges (xs ys : List α) : List (List α) :=
  mergesGo (xs.length + ys.length + 1) xs ys

def bothOk (r : FS × AcqLocal × AcqLocal) : Bool :=
  (r.2.1.result == some (Except.ok ())) && (r.2.2.result == some (Except.ok ()))

/-! ## Lemmas: decimal parsing and rendering -/

lemma digitChar_isDigit (d : Nat) (hd : d < 10) : (Char.ofNat (48 + d)).isDigit = true := by
  interval_cases d <;> decide

lemma digitChar_toNat (d : Nat) (hd : d < 10) : (Char.ofNat (48 + d)).toNat = 48 + d := by
  interval_cases d <;> decide

lemma natDigitsGo_eq (fuel n : Nat) (h : n ≤ fuel) : natDigitsGo fuel n = Nat.digits 10 n := by
  induction fuel generalizing n with
  | zero =>
      have hn0 : n = 0 := Nat.le_zero.mp h
      subst hn0
      rw [show natDigitsGo 0 0 = [] from rfl, Nat.digits_zero]
  | succ fuel ih =>
      cases n with
      | zero => rw [show natDigitsGo (fuel + 1) 0 = [] from rfl, Nat.digits_zero]
      | succ m =>
          rw [show natDigitsGo (fuel + 1) (m + 1)
              = (m + 1) % 10 :: natDigitsGo fuel ((m + 1) / 10) from rfl]
          rw [Nat.digits_def' (by norm_num : 1 < 10) (Nat.succ_pos m)]
          have hdiv : (m + 1) / 10 ≤ fuel := by
            have := Nat.div_lt_self (Nat.succ_pos m) (by norm_num : 1 < 10)
            omega
          rw [ih _ hdiv]

lemma natDecimal_eq_digits (n : Nat) :
    natDecimal n
      = if n = 0 then ['0']
        else ((Nat.digits 10 n).map (fun d => Char.ofNat (48 + d))).reverse := by
  unfold natDecimal
  rw [natDigitsGo_eq n n le_rfl]

lemma natDecimal_all_digits (n : Nat) : ∀ c ∈ natDecimal n, c.isDigit = true := by
  intro c hc
  rw [natDecimal_eq_digits] at hc
  by_cases h0 : n = 0
  · simp [h0] at hc; simp [hc]
  · simp [h0, List.mem_reverse, List.mem_map] at hc
    obtain ⟨d, hd, rfl⟩ := hc
    exact digitChar_isDigit d (Nat.digits_lt_base (by norm_num) hd)

lemma natDecimal_ne_nil (n : Nat) : natDecimal n ≠ [] := by
  rw [natDecimal_eq_digits]
  by_cases h0 : n = 0
  · simp [h0]
  · simp only [h0, if_false, ne_eq, List.reverse_eq_nil_iff, List.map_eq_nil_iff]
    exact Nat.digits_ne_nil_iff_ne_zero.mpr h0

lemma foldl_digits_reverse (L : List Nat) (a : Nat) :
    L.reverse.foldl (fun x d => x * 10 + d) a = a * 10 ^ L.length + Nat.ofDigits 10 L := by
  induction L generalizing a with
  | nil => simp [Nat.ofDigits]
  | cons d L ih =>
      simp only [List.reverse_cons, List.foldl_append, List.foldl_cons, List.foldl_nil,
        Nat.ofDigits_cons, List.length_cons]
      rw [ih]
      ring

lemma parseDigits_natDecimal (n : Nat) : parseDigits (natDecimal n) = some n := by
  unfold parseDigits
  rw [if_neg (natDecimal_ne_nil n)]
  rw [if_pos (by simpa [List.all_eq_true] using natDecimal_all_digits n)]
  congr 1
  rw [natDecimal_eq_digits]
  by_cases h0 : n = 0
  · simp [h0]
  · rw [if_neg h0]
    rw [← List.map_reverse, List.foldl_map]
    have key : ∀ (L : List Nat), (∀ d ∈ L, d < 10) → ∀ a : Nat,
        L.foldl (fun x d => x * 10 + ((Char.ofNat (48 + d)).toNat - 48)) a
          = L.foldl (fun x d => x * 10 + d) a := by
      intro L
      induction L with
      | nil => intro _ a; rfl
      | cons d L ih =>
          intro hL a
          simp only [List.foldl_cons]
          rw [digitChar_toNat d (hL d (by simp))]
          have heq : a * 10 + (48 + d - 48) = a * 10 + d := by omega
          rw [heq, ih (fun x hx => hL x (by simp [hx]))]
    rw [key _ (fun d hd => Nat.digits_lt_base (by norm_num) (List.mem_reverse.mp hd)) 0]
    rw [foldl_digits_reverse]
    simpa using Nat.ofDigits_digits 10 n

lemma natDecimal_head_digit (n : Nat) :
    ∃ c rest, natDecimal n = c :: rest ∧ c.isDigit = true := by
  cases hds : natDecimal n with
  | nil => exact absurd hds (natDecimal_ne_nil n)
  | cons c rest =>
      refine ⟨c, rest, rfl, ?_⟩
      exact natDecimal_all_digits n c (by rw [hds]; simp)

lemma isDigit_ne_plus {c : Char} (hc : c.isDigit = true) : c ≠ '+' := by
  intro h; rw [h] at hc; simp at hc

lemma isDigit_ne_minus {c : Char} (hc : c.isDigit = true) : c ≠ '-' := by
  intro h; rw [h] at hc; simp at hc

lemma isDigit_ne_comma {c : Char} (hc : c.isDigit = true) : c ≠ ',' := by
  intro h; rw [h] at hc; simp at hc

lemma rustParseU32Chars_natDecimal (n : Nat) (hn : n < U32_MOD) :
    rustParseU32Chars (natDecimal n) = some n := by
  obtain ⟨c, rest, hds, hcd⟩ := natDecimal_head_digit n
  unfold rustParseU32Chars
  rw [hds]
  simp only [if_neg (isDigit_ne_plus hcd)]
  rw [← hds, parseDigits_natDecimal]
  simp [hn]

lemma rustParseI32Chars_intDecimal (i : Int) (hlo : -(I32_HALF : Int) ≤ i) (hhi : i < I32_HALF) :
    rustParseI32Chars (intDecimal i) = some i := by
  unfold intDecimal
  by_cases hneg : i < 0
  · rw [if_pos hneg]
    unfold rustParseI32Chars
    simp only [if_pos rfl]
    rw [parseDigits_natDecimal]
    have hle : i.natAbs ≤ I32_HALF := by omega
    simp only [Option.some_bind, hle, if_true, Option.some.injEq]
    omega
  · rw [if_neg hneg]
    obtain ⟨c, rest, hds, hcd⟩ := natDecimal_head_digit i.natAbs
    unfold rustParseI32Chars
    rw [hds]
    simp only [if_neg (isDigit_ne_minus hcd), if_neg (isDigit_ne_plus hcd)]
    rw [← hds, parseDigits_natDecimal]
    have habs : i.natAbs < I32_HALF := by omega
    simp only [Option.some_bind, habs, if_true, Option.some.injEq]
    omega

/-! ## Lemmas: the ChildId split pipeline -/

lemma stripLeading_cons (c : Char) (xs : List Char) : stripLeading c (c :: xs) = some xs := by
  simp [stripLeading]

lemma stripTrailing_append (c : Char) (xs : List Char) :
    stripTrailing c (xs ++ [c]) = some xs := by
  unfold stripTrailing
  rw [List.reverse_append]
  simp

lemma splitOnce_append (c : Char) (a b : List Char) (ha : ∀ x ∈ a, x ≠ c) :
    splitOnce c (a ++ c :: b) = some (a, b) := by
  induction a with
  | nil => simp [splitOnce]
  | cons x xs ih =>
      have hx : x ≠ c := ha x (by simp)
      simp only [List.cons_append, splitOnce, if_neg hx, List.append_eq]
      rw [ih (fun y hy => ha y (by simp [hy]))]
      rfl

lemma splitOnce_eq_none (c : Char) (cs : List Char) (h : c ∉ cs) : splitOnce c cs = none := by
  induction cs with
  | nil => rfl
  | cons x xs ih =>
      have hx : x ≠ c := by intro hc; exact h (by simp [hc])
      simp only [splitOnce, if_neg hx]
      rw [ih (fun hc => h (by simp [hc]))]
      rfl

lemma toList_mk (l : List Char) : (String.mk l).toList = l := rfl

lemma stripLeading_cons_eq (c x : Char) (xs : List Char) :
    stripLeading c (x :: xs) = if x = c then some xs else none := rfl

lemma splitOnce_cons_eq (c x : Char) (xs : List Char) :
    splitOnce c (x :: xs)
      = if x = c then some ([], xs) else (splitOnce c xs).map (fun p => (x :: p.1, p.2)) := rfl

lemma stripTrailing_reverse_cons {c y : Char} {xs ys' : List Char}
    (hrev : xs.reverse = y :: ys') :
    stripTrailing c xs = if y = c then some ys'.reverse else none := by
  unfold stripTrailing
  rw [hrev]

lemma stripLeading_eq_some {c : Char} {xs ys : List Char}
    (h : stripLeading c xs = some ys) : xs = c :: ys := by
  cases xs with
  | nil => cases h
  | cons x xs =>
      rw [stripLeading_cons_eq] at h
      by_cases hx : x = c
      · rw [if_pos hx] at h
        injection h with h1
        rw [hx, h1]
      · rw [if_neg hx] at h
        cases h

lemma stripTrailing_eq_some {c : Char} {xs ys : List Char}
    (h : stripTrailing c xs = some ys) : xs = ys ++ [c] := by
  cases hrev : xs.reverse with
  | nil =>
      rw [stripTrailing, hrev] at h
      cases h
  | cons y ys' =>
      rw [stripTrailing_reverse_cons hrev] at h
      by_cases hy : y = c
      · rw [if_pos hy] at h
        injection h with h1
        have hx : xs = ys'.reverse ++ [y] := by
          have := congrArg List.reverse hrev
          rw [List.reverse_reverse] at this
          simpa using this
        rw [hx, h1, hy]
      · rw [if_neg hy] at h
        cases h

lemma splitOnce_eq_some {c : Char} {cs a b : List Char}
    (h : splitOnce c cs = some (a, b)) : cs = a ++ c :: b := by
  induction cs generalizing a b with
  | nil => cases h
  | cons x xs ih =>
      rw [splitOnce_cons_eq] at h
      by_cases hx : x = c
      · rw [if_pos hx] at h
        injection h with h1
        rw [Prod.mk.injEq] at h1
        obtain ⟨ha, hb⟩ := h1
        rw [← ha, ← hb]
        simp [hx]
      · rw [if_neg hx] at h
        cases hsp : splitOnce c xs with
        | none => rw [hsp] at h; cases h
        | some p =>
            rw [hsp] at h
            injection h with h1
            rw [Prod.mk.injEq] at h1
            obtain ⟨ha, hb⟩ := h1
            rw [← ha, ← hb, List.cons_append]
            cases p with
            | mk pa pb => rw [ih hsp]

lemma parseDigits_eq_none_of_bad {xs : List Char} {c : Char}
    (hc : c ∈ xs) (hd : c.isDigit = false) : parseDigits xs = none := by
  unfold parseDigits
  have hnil : xs ≠ [] := by intro h; rw [h] at hc; cases hc
  rw [if_neg hnil]
  have hall : ¬ (xs.all Char.isDigit = true) := by
    rw [List.all_eq_true]
    intro hall
    have := hall c hc
    rw [hd] at this
    cases this
  simp [hall]

lemma rustParseU32Chars_rejects_bad {x : List Char} {c : Char}
    (hc : c ∈ x) (hd : c.isDigit = false) (hp : c ≠ '+') : rustParseU32Chars x = none := by
  unfold rustParseU32Chars
  cases x with
  | nil => cases hc
  | cons x0 xs =>
      by_cases h0 : x0 = '+'
      · simp only [if_pos h0]
        have hcxs : c ∈ xs := by
          rcases List.mem_cons.mp hc with h | h
          · exact absurd (h.trans h0) hp
          · exact h
        rw [parseDigits_eq_none_of_bad hcxs hd]
        rfl
      · simp only [if_neg h0]
        rw [parseDigits_eq_none_of_bad hc hd]
        rfl

lemma rustParseI32Chars_cons_eq (y0 : Char) (ys : List Char) :
    rustParseI32Chars (y0 :: ys)
      = if y0 = '-' then
          (parseDigits ys).bind (fun n => if n ≤ I32_HALF then some (-(n : Int)) else none)
        else if y0 = '+' then
          (parseDigits ys).bind (fun n => if n < I32_HALF then some ((n : Int)) else none)
        else
          (parseDigits (y0 :: ys)).bind
            (fun n => if n < I32_HALF then some ((n : Int)) else none) := rfl

lemma rustParseI32Chars_rejects_bad {y : List Char} {c : Char}
    (hc : c ∈ y) (hd : c.isDigit = false) (hp : c ≠ '+') (hm : c ≠ '-') :
    rustParseI32Chars y = none := by
  cases y with
  | nil => cases hc
  | cons y0 ys =>
      rw [rustParseI32Chars_cons_eq]
      by_cases h0 : y0 = '-'
      · rw [if_pos h0]
        have hcys : c ∈ ys := by
          rcases List.mem_cons.mp hc with h | h
          · exact absurd (h.trans h0) hm
          · exact h
        rw [parseDigits_eq_none_of_bad hcys hd]
        rfl
      · rw [if_neg h0]
        by_cases h1 : y0 = '+'
        · rw [if_pos h1]
          have hcys : c ∈ ys := by
            rcases List.mem_cons.mp hc with h | h
            · exact absurd (h.trans h1) hp
            · exact h
          rw [parseDigits_eq_none_of_bad hcys hd]
          rfl
        · rw [if_neg h1]
          rw [parseDigits_eq_none_of_bad hc hd]
          rfl

lemma childIdSplit_toChars (cid : ChildId) :
    childIdSplit (childIdToChars cid) = some (natDecimal cid.id, intDecimal cid.pid) := by
  unfold childIdSplit childIdToChars
  rw [stripLeading_cons]
  have hassoc : natDecimal cid.id ++ ',' :: (intDecimal cid.pid ++ [')'])
      = (natDecimal cid.id ++ ',' :: intDecimal cid.pid) ++ [')'] := by
    simp
  rw [Option.some_bind, hassoc, stripTrailing_append, Option.some_bind]
  exact splitOnce_append ',' _ _
    (fun x hx => isDigit_ne_comma (natDecimal_all_digits cid.id x hx))

lemma childIdFromChars_no_open {cs : List Char} (h : cs.head? ≠ some '(') :
    childIdFromChars cs = none := by
  unfold childIdFromChars childIdSplit
  cases cs with
  | nil => rfl
  | cons x xs =>
      have hx : x ≠ '(' := by
        intro hc
        exact h (by rw [hc]; rfl)
      rw [stripLeading_cons_eq, if_neg hx]
      rfl

lemma childIdFromChars_no_close {cs : List Char} (h : cs.getLast? ≠ some ')') :
    childIdFromChars cs = none := by
  unfold childIdFromChars childIdSplit
  cases cs with
  | nil => rfl
  | cons x xs =>
      by_cases hx : x = '('
      · rw [stripLeading_cons_eq, if_pos hx, Option.some_bind]
        cases hrev : xs.reverse with
        | nil =>
            have hnone : stripTrailing ')' xs = none := by
              rw [stripTrailing, hrev]
            rw [hnone]
            rfl
        | cons y ys' =>
            have hlast : (x :: xs).getLast? = some y := by
              rw [← List.head?_reverse, List.reverse_cons, hrev, List.cons_append]
              rfl
            have hy : y ≠ ')' := by
              intro hc
              rw [hc] at hlast
              exact h hlast
            have hnone : stripTrailing ')' xs = none := by
              rw [stripTrailing_reverse_cons hrev, if_neg hy]
            rw [hnone]
            rfl
      · rw [stripLeading_cons_eq, if_neg hx]
        rfl

lemma childIdFromChars_no_comma {cs : List Char} (h : ',' ∉ cs) :
    childIdFromChars cs = none := by
  unfold childIdFromChars
  cases hsp : childIdSplit cs with
  | none => rfl
  | some xy =>
      exfalso
      unfold childIdSplit at hsp
      cases h1 : stripLeading '(' cs with
      | none => rw [h1] at hsp; cases hsp
      | some cs1 =>
          rw [h1, Option.some_bind] at hsp
          cases h2 : stripTrailing ')' cs1 with
          | none => rw [h2] at hsp; cases hsp
          | some cs2 =>
              rw [h2, Option.some_bind] at hsp
              cases xy with
              | mk a b =>
                  have hcs2 := splitOnce_eq_some hsp
                  have hcs1 := stripTrailing_eq_some h2
                  have hcs := stripLeading_eq_some h1
                  apply h
                  rw [hcs, hcs1, hcs2]
                  simp

lemma childIdFromChars_roundtrip (cid : ChildId) (h1 : cid.id < U32_MOD)
    (h2 : -(I32_HALF : Int) ≤ cid.pid) (h3 : cid.pid < I32_HALF) :
    childIdFromChars (childIdToChars cid) = some cid := by
  unfold childIdFromChars
  rw [childIdSplit_toChars, Option.some_bind]
  rw [rustParseU32Chars_natDecimal cid.id h1, Option.some_bind]
  rw [rustParseI32Chars_intDecimal cid.pid h2 h3]
  rfl

/-! ## Claim C3 -/

/-- C3 (corrected): for every valid `ChildId` (`seq` a `u32`, `pid` an `i32`),
parsing the rendered `"(seq,pid)"` form returns the original id; parsing
rejects every input that lacks the opening parenthesis, lacks the closing
parenthesis, or lacks the comma; and a component makes parsing fail whenever
it contains a character that is not a digit and not an allowed leading sign
(`+` for the seq component; `+` or `-` for the pid component).  The original
claim's stronger clause — failure on any non-digit character — is refuted by
`C3_counterexample`. -/
theorem C3_childId_roundtrip_and_rejection :
    (∀ (i : Nat) (p : Int), i < U32_MOD → -(I32_HALF : Int) ≤ p → p < I32_HALF →
        childIdFromStr (childIdToString (ChildId.mk i p)) = some (ChildId.mk i p)) ∧
    (∀ s : String, s.toList.head? ≠ some '(' → childIdFromStr s = none) ∧
    (∀ s : String, s.toList.getLast? ≠ some ')' → childIdFromStr s = none) ∧
    (∀ s : String, ',' ∉ s.toList → childIdFromStr s = none) ∧
    (∀ (cs x y : List Char) (c : Char), childIdSplit cs = some (x, y) →
        c ∈ x → c.isDigit = false → c ≠ '+' → childIdFromChars cs = none) ∧
    (∀ (cs x y : List Char) (c : Char), childIdSplit cs = some (x, y) →
        c ∈ y → c.isDigit = false → c ≠ '+' → c ≠ '-' → childIdFromChars cs = none) := by
  refine ⟨?_, ?_, ?_, ?_, ?_, ?_⟩
  · intro i p h1 h2 h3
    exact childIdFromChars_roundtrip (ChildId.mk i p) h1 h2 h3
  · intro s h
    exact childIdFromChars_no_open h
  · intro s h
    exact childIdFromChars_no_close h
  · intro s h
    exact childIdFromChars_no_comma h
  · intro cs x y c hsp hc hd hp
    unfold childIdFromChars
    rw [hsp, Option.some_bind, rustParseU32Chars_rejects_bad hc hd hp]
    rfl
  · intro cs x y c hsp hc hd hp hm
    unfold childIdFromChars
    rw [hsp, Option.some_bind]
    cases rustParseU32Chars x with
    | none => rfl
    | some i =>
        rw [Option.some_bind, rustParseI32Chars_rejects_bad hc hd hp hm]
        rfl

/-- Witness for C3: the round-trip at `(2,81581)` and the rejection clauses at
the spec's probe strings. -/
theorem C3_witness :
    childIdFromStr (childIdToString (ChildId.mk 2 81581)) = some (ChildId.mk 2 81581) ∧
    childIdFromStr "2,5" = none ∧
    childIdFromStr "(123,456" = none ∧
    childIdFromStr "(2 5)" = none :=
  ⟨C3_childId_roundtrip_and_rejection.1 2 81581 (by decide) (by decide) (by decide),
   C3_childId_roundtrip_and_rejection.2.1 "2,5" (by decide),
   C3_childId_roundtrip_and_rejection.2.2.1 "(123,456" (by decide),
   C3_childId_roundtrip_and_rejection.2.2.2.1 "(2 5)" (by decide)⟩

/-- Counterexample to C3 as stated: `"(+2,5)"` splits into components `"+2"`
and `"5"`, and `'+'` is not a digit, yet parsing succeeds (Rust integer
parsing accepts a leading sign), contradicting the claim that components
containing any non-digit character always fail. -/
theorem C3_counterexample :
    childIdSplit "(+2,5)".toList = some (['+', '2'], ['5']) ∧
    ('+' ∈ ['+', '2'] ∧ '+'.isDigit = false) ∧
    childIdFromStr "(+2,5)" = some (ChildId.mk 2 5) := by
  refine ⟨by decide, ⟨by decide, by decide⟩, by decide⟩

/-! ## Lemmas: the exit-info ring -/

lemma setMany_append (r : ExitInfoRecord) (ws : List (Nat × Int)) (w : Nat × Int) :
    r.setMany (ws ++ [w]) = (r.setMany ws).set w.1 w.2 := by
  unfold ExitInfoRecord.setMany
  rw [List.foldl_append]
  rfl

lemma slotModelGo_append (L j : Nat) (ws : List (Nat × Int)) (w : Nat × Int) :
    ∀ (k : Nat) (acc : Nat × Int),
      slotModelGo L j k (ws ++ [w]) acc
        = (if (k + ws.length) % L = j then w else slotModelGo L j k ws acc) := by
  induction ws with
  | nil =>
      intro k acc
      simp [slotModelGo]
  | cons w0 ws ih =>
      intro k acc
      simp only [List.cons_append, slotModelGo, List.append_eq]
      rw [ih]
      have harith : k + 1 + ws.length = k + (ws.length + 1) := by omega
      rw [harith]
      rfl

lemma slotModel_append (L : Nat) (ws : List (Nat × Int)) (w : Nat × Int) (j : Nat) :
    slotModel L (ws ++ [w]) j = if ws.length % L = j then w else slotModel L ws j := by
  unfold slotModel
  rw [slotModelGo_append]
  simp

lemma slotModel_nil (L j : Nat) : slotModel L [] j = (0, 0) := rfl

lemma slotModelGo_notouch (L j : Nat) (ws : List (Nat × Int)) :
    ∀ (k : Nat) (acc : Nat × Int), (∀ t, t < ws.length → (k + t) % L ≠ j) →
      slotModelGo L j k ws acc = acc := by
  induction ws with
  | nil => intro k acc _; rfl
  | cons w0 ws ih =>
      intro k acc h
      simp only [slotModelGo]
      have h0 : ¬ k % L = j := by
        have := h 0 (by simp)
        simpa using this
      rw [if_neg h0]
      apply ih
      intro t ht
      have := h (t + 1) (by simp; omega)
      have harith : k + (t + 1) = k + 1 + t := by omega
      rw [harith] at this
      exact this

lemma slotModel_untouched (L : Nat) (ws : List (Nat × Int)) (j : Nat)
    (hj : ws.length ≤ j) (hjL : j < L) : slotModel L ws j = (0, 0) := by
  unfold slotModel
  apply slotModelGo_notouch
  intro t ht
  simp only [Nat.zero_add]
  rw [Nat.mod_eq_of_lt (by omega)]
  omega

lemma slotModel_mem (L : Nat) (ws : List (Nat × Int)) (j : Nat) :
    slotModel L ws j = (0, 0) ∨ slotModel L ws j ∈ ws := by
  induction ws using List.reverseRecOn with
  | nil => left; rfl
  | append_singleton ws w ih =>
      rw [slotModel_append]
      by_cases hc : ws.length % L = j
      · rw [if_pos hc]; right; simp
      · rw [if_neg hc]
        rcases ih with h | h
        · left; exact h
        · right; simp [h]

lemma mod_ne_of_lt_of_lt_add {a b L : Nat} (hab : a < b) (hbL : b < a + L) :
    b % L ≠ a % L := by
  intro h
  have hL : 0 < L := by omega
  have hmod : a ≡ b [MOD L] := h.symm
  have hdvd : L ∣ b - a := (Nat.modEq_iff_dvd' (by omega)).mp hmod
  have hle : L ≤ b - a := Nat.le_of_dvd (by omega) hdvd
  omega

lemma slotModel_last (L : Nat) (_hL : 0 < L) (ws : List (Nat × Int)) :
    ∀ (i : Nat) (hi : i < ws.length), ws.length ≤ i + L →
      slotModel L ws (i % L) = ws.get ⟨i, hi⟩ := by
  induction ws using List.reverseRecOn with
  | nil => intro i hi; simp at hi
  | append_singleton ws w ih =>
      intro i hi hwin
      rw [slotModel_append]
      rcases Nat.lt_or_ge i ws.length with hlt | hge
      · have hne : ws.length % L ≠ i % L := by
          apply mod_ne_of_lt_of_lt_add hlt
          have : (ws ++ [w]).length = ws.length + 1 := by simp
          omega
        rw [if_neg hne]
        have hget : (ws ++ [w]).get ⟨i, hi⟩ = ws.get ⟨i, hlt⟩ := by
          simp [List.get_eq_getElem, List.getElem_append, hlt]
        rw [hget]
        apply ih i hlt
        have : (ws ++ [w]).length = ws.length + 1 := by simp
        omega
      · have hieq : i = ws.length := by
          have : (ws ++ [w]).length = ws.length + 1 := by simp
          omega
        subst hieq
        rw [if_pos rfl]
        simp

lemma zip_set {α β : Type} (l : List α) (l' : List β) :
    ∀ (i : Nat) (a : α) (b : β), (l.set i a).zip (l'.set i b) = (l.zip l').set i (a, b) := by
  induction l generalizing l' with
  | nil => intro i a b; simp
  | cons x xs ih =>
      intro i a b
      cases l' with
      | nil => simp
      | cons y ys =>
          cases i with
          | zero => simp [List.set, List.zip]
          | succ n =>
              simp only [List.set, List.zip_cons_cons]
              rw [ih]
              rfl

lemma zip_replicate_pair {α β : Type} (a : α) (b : β) :
    ∀ (L : Nat), (List.replicate L a).zip (List.replicate L b) = List.replicate L (a, b) := by
  intro L
  induction L with
  | zero => rfl
  | succ n ih => simp [List.replicate, ih]

lemma map_range_set {α : Type} (L m : Nat) (_hm : m < L) (f : Nat → α) (w : α) :
    ((List.range L).map f).set m w = (List.range L).map (fun j => if m = j then w else f j) := by
  apply List.ext_getElem
  · simp
  · intro i h1 h2
    have hiL : i < L := by simpa using h2
    simp only [List.getElem_set, List.getElem_map, List.getElem_range]

lemma sub_mod_self {a L : Nat} (h : L ≤ a) : (a - L) % L = a % L := by
  conv_rhs => rw [← Nat.sub_add_cancel h]
  rw [Nat.add_mod_right]

/-- The central ring invariant: after folding any write list into a fresh ring
of positive capacity `L`, the bookkeeping fields are determined by the number
of writes and the slots are exactly described by `slotModel`. -/
lemma setMany_inv (L : Nat) (hL : 0 < L) (ws : List (Nat × Int)) :
    (ExitInfoRecord.setMany (ExitInfoRecord.new L) ws).limit = L ∧
    (ExitInfoRecord.setMany (ExitInfoRecord.new L) ws).count = min ws.length L ∧
    (ExitInfoRecord.setMany (ExitInfoRecord.new L) ws).start
      = (if ws.length ≤ L then 0 else (ws.length - L) % L) ∧
    (ExitInfoRecord.setMany (ExitInfoRecord.new L) ws).child_ids.length = L ∧
    (ExitInfoRecord.setMany (ExitInfoRecord.new L) ws).exit_codes.length = L ∧
    (ExitInfoRecord.setMany (ExitInfoRecord.new L) ws).child_ids.zip
        (ExitInfoRecord.setMany (ExitInfoRecord.new L) ws).exit_codes
      = (List.range L).map (slotModel L ws) := by
  induction ws using List.reverseRecOn with
  | nil =>
      refine ⟨rfl, by simp [ExitInfoRecord.setMany, ExitInfoRecord.new],
        by simp [ExitInfoRecord.setMany, ExitInfoRecord.new],
        by simp [ExitInfoRecord.setMany, ExitInfoRecord.new],
        by simp [ExitInfoRecord.setMany, ExitInfoRecord.new], ?_⟩
      show (List.replicate L (0 : Nat)).zip (List.replicate L (0 : Int))
          = (List.range L).map (slotModel L [])
      rw [zip_replicate_pair]
      have : (List.range L).map (slotModel L []) = (List.range L).map (fun _ => ((0 : Nat), (0 : Int))) := by
        apply List.map_congr_left
        intro j _
        rfl
      rw [this]
      rw [List.map_const']
      simp
  | append_singleton ws w ih =>
      obtain ⟨hlim, hcount, hstart, hlen1, hlen2, hzip⟩ := ih
      rw [setMany_append]
      set r := ExitInfoRecord.setMany (ExitInfoRecord.new L) ws with hr
      unfold ExitInfoRecord.set
      by_cases hfull : ws.length < L
      · have hcountlt : r.count < r.limit := by
          rw [hcount, hlim]
          omega
        rw [if_pos hcountlt]
        have hcnt : r.count = ws.length := by rw [hcount]; omega
        refine ⟨hlim, ?_, ?_, by simp [hlen1], by simp [hlen2], ?_⟩
        · simp only [hcnt]
          have : (ws ++ [w]).length = ws.length + 1 := by simp
          rw [this]
          omega
        · simp only [hstart]
          have h1 : ws.length ≤ L := by omega
          have h2 : (ws ++ [w]).length ≤ L := by simp; omega
          rw [if_pos h1, if_pos h2]
        · show (r.child_ids.set r.count w.1).zip (r.exit_codes.set r.count w.2)
              = (List.range L).map (slotModel L (ws ++ [w]))
          rw [zip_set, hzip, hcnt]
          rw [map_range_set L ws.length hfull]
          apply List.map_congr_left
          intro j _
          rw [slotModel_append]
          rw [Nat.mod_eq_of_lt hfull]
      · have hge : L ≤ ws.length := by omega
        have hcountge : ¬ r.count < r.limit := by
          rw [hcount, hlim]
          omega
        rw [if_neg hcountge]
        have hstartval : r.start = (ws.length - L) % L := by
          rw [hstart]
          by_cases heq : ws.length ≤ L
          · have : ws.length = L := by omega
            rw [if_pos heq, this]
            simp
          · rw [if_neg heq]
        have hstartlt : r.start < L := by
          rw [hstartval]
          exact Nat.mod_lt _ hL
        refine ⟨hlim, ?_, ?_, by simp [hlen1], by simp [hlen2], ?_⟩
        · rw [hcount]
          have : (ws ++ [w]).length = ws.length + 1 := by simp
          rw [this]
          omega
        · rw [hstartval, hlim]
          have hgt : ¬ (ws ++ [w]).length ≤ L := by simp; omega
          rw [if_neg hgt]
          have hlen : (ws ++ [w]).length - L = (ws.length - L) + 1 := by simp; omega
          rw [hlen, Nat.mod_add_mod]
        · show (r.child_ids.set r.start w.1).zip (r.exit_codes.set r.start w.2)
              = (List.range L).map (slotModel L (ws ++ [w]))
          rw [zip_set, hzip, map_range_set L r.start hstartlt]
          apply List.map_congr_left
          intro j _
          rw [slotModel_append]
          have hmod : ws.length % L = r.start := by rw [hstartval, sub_mod_self hge]
          rw [hmod]
lemma eq_of_fst_eq_of_nodup {ws : List (Nat × Int)} (h : (ws.map Prod.fst).Nodup)
    {a b : Nat × Int} (ha : a ∈ ws) (hb : b ∈ ws) (hfst : a.1 = b.1) : a = b := by
  induction ws with
  | nil => cases ha
  | cons w ws ih =>
      rw [List.map_cons, List.nodup_cons] at h
      rcases List.mem_cons.mp ha with rfl | ha' <;> rcases List.mem_cons.mp hb with rfl | hb'
      · rfl
      · exfalso
        exact h.1 (hfst ▸ List.mem_map_of_mem Prod.fst hb')
      · exfalso
        exact h.1 (hfst ▸ List.mem_map_of_mem Prod.fst ha')
      · exact ih h.2 ha' hb'

lemma ring_get_of_recent (L : Nat) (hL : 0 < L) (ws : List (Nat × Int))
    (hnodup : (ws.map Prod.fst).Nodup) (hnz : ∀ w ∈ ws, w.1 ≠ 0)
    (i : Nat) (hi : i < ws.length) (hwin : ws.length ≤ i + L) :
    (ExitInfoRecord.setMany (ExitInfoRecord.new L) ws).get (ws.get ⟨i, hi⟩).1
      = some (ws.get ⟨i, hi⟩).2 := by
  obtain ⟨hlim, hcount, hstart, hlen1, hlen2, hzip⟩ := setMany_inv L hL ws
  have hwimem : ws.get ⟨i, hi⟩ ∈ ws := List.get_mem ws i hi
  unfold ExitInfoRecord.get
  rw [hzip]
  have hmem_char : ∀ e ∈ (List.range L).map (slotModel L ws),
      e.1 = (ws.get ⟨i, hi⟩).1 → e = ws.get ⟨i, hi⟩ := by
    intro e he hfst
    obtain ⟨j, _, rfl⟩ := List.mem_map.mp he
    rcases slotModel_mem L ws j with h0 | hmem
    · exfalso
      rw [h0] at hfst
      exact hnz _ hwimem hfst.symm
    · exact eq_of_fst_eq_of_nodup hnodup hmem hwimem hfst
  have hexists : ws.get ⟨i, hi⟩ ∈ (List.range L).map (slotModel L ws) := by
    apply List.mem_map.mpr
    exact ⟨i % L, List.mem_range.mpr (Nat.mod_lt _ hL), slotModel_last L hL ws i hi hwin⟩
  have hsome : (((List.range L).map (slotModel L ws)).find?
      (fun e => e.1 == (ws.get ⟨i, hi⟩).1)).isSome := by
    rw [List.find?_isSome]
    exact ⟨ws.get ⟨i, hi⟩, hexists, by simp⟩
  obtain ⟨e, he⟩ := Option.isSome_iff_exists.mp hsome
  rw [he]
  have hpe := List.find?_some he
  have hme := List.mem_of_find?_eq_some he
  have heq : e = ws.get ⟨i, hi⟩ := hmem_char e hme (by simpa using hpe)
  simp [heq]

lemma ring_get_zero (L : Nat) (hL : 0 < L) (ws : List (Nat × Int))
    (hlen : ws.length < L) (hnz : ∀ w ∈ ws, w.1 ≠ 0) :
    (ExitInfoRecord.setMany (ExitInfoRecord.new L) ws).get 0 = some 0 := by
  obtain ⟨hlim, hcount, hstart, hlen1, hlen2, hzip⟩ := setMany_inv L hL ws
  unfold ExitInfoRecord.get
  rw [hzip]
  have hmem_char : ∀ e ∈ (List.range L).map (slotModel L ws), e.1 = 0 → e.2 = 0 := by
    intro e he hfst
    obtain ⟨j, _, rfl⟩ := List.mem_map.mp he
    rcases slotModel_mem L ws j with h0 | hmem
    · rw [h0]
    · exact absurd hfst (hnz _ hmem)
  have hexists : ((0 : Nat), (0 : Int)) ∈ (List.range L).map (slotModel L ws) := by
    apply List.mem_map.mpr
    exact ⟨ws.length, List.mem_range.mpr hlen,
      slotModel_untouched L ws ws.length (le_refl _) hlen⟩
  have hsome : (((List.range L).map (slotModel L ws)).find? (fun e => e.1 == 0)).isSome := by
    rw [List.find?_isSome]
    exact ⟨((0 : Nat), (0 : Int)), hexists, by simp⟩
  obtain ⟨e, he⟩ := Option.isSome_iff_exists.mp hsome
  rw [he]
  have hpe := List.find?_some he
  have hme := List.mem_of_find?_eq_some he
  have heq : e.2 = 0 := hmem_char e hme (by simpa using hpe)
  simp [heq]

/-! ## Claim C5 -/

/-- C5: the exit-info ring has fixed capacity and never grows (the backing
vectors keep length `L` and the element count never exceeds `L`), and for
every recorded exit, as long as fewer than `capacity` newer exits have been
recorded since, `get` still returns its recorded exit code.  The seq numbers
of recorded exits are pairwise distinct and nonzero, as guaranteed by the
supervisor's monotone counter starting at 1. -/
theorem C5_ring_capacity_and_retention
    (L : Nat) (ws : List (Nat × Int)) (hL : 0 < L)
    (hnodup : (ws.map Prod.fst).Nodup) (hnz : ∀ w ∈ ws, w.1 ≠ 0) :
    ((ExitInfoRecord.setMany (ExitInfoRecord.new L) ws).limit = L ∧
     (ExitInfoRecord.setMany (ExitInfoRecord.new L) ws).child_ids.length = L ∧
     (ExitInfoRecord.setMany (ExitInfoRecord.new L) ws).exit_codes.length = L ∧
     (ExitInfoRecord.setMany (ExitInfoRecord.new L) ws).count ≤ L) ∧
    (∀ (i : Nat) (hi : i < ws.length), ws.length ≤ i + L →
      (ExitInfoRecord.setMany (ExitInfoRecord.new L) ws).get (ws.get ⟨i, hi⟩).1
        = some (ws.get ⟨i, hi⟩).2) := by
  obtain ⟨hlim, hcount, hstart, hlen1, hlen2, hzip⟩ := setMany_inv L hL ws
  refine ⟨⟨hlim, hlen1, hlen2, ?_⟩, ?_⟩
  · rw [hcount]; omega
  · intro i hi hwin
    exact ring_get_of_recent L hL ws hnodup hnz i hi hwin

/-- Witness for C5: capacity 2, three writes; the two most recent seqs are
still retrievable and the backing vectors kept length 2. -/
theorem C5_witness :
    (ExitInfoRecord.setMany (ExitInfoRecord.new 2) [(1, 0), (2, 3), (3, 7)]).get 3 = some 7 ∧
    (ExitInfoRecord.setMany (ExitInfoRecord.new 2) [(1, 0), (2, 3), (3, 7)]).child_ids.length = 2 := by
  have h := C5_ring_capacity_and_retention 2 [(1, 0), (2, 3), (3, 7)]
    (by decide) (by decide) (by decide)
  constructor
  · have h2 := h.2 2 (by decide) (by decide)
    simpa using h2
  · exact h.1.2.1

/-! ## Claim C10 -/

/-- C10 (implicit behaviour, confirmed): the ring's backing vectors are
zero-initialised and `get` scans every slot, so while fewer than 128 exits
have been recorded (all with nonzero seq, as the supervisor allocates seqs
from 1), `get 0` returns `some 0`; consequently `get_exit_code` on a
`ChildId` with seq 0 answers `Ok(0)` immediately — never the unknown-child
error and without ever calling `waitpid`. -/
theorem C10_seq_zero_phantom_exit_code :
    (∀ ws : List (Nat × Int), ws.length < 128 → (∀ w ∈ ws, w.1 ≠ 0) →
      (ExitInfoRecord.setMany (ExitInfoRecord.new 128) ws).get 0 = some 0) ∧
    (∀ (s : Supervisor) (ws : List (Nat × Int)) (pid : Int) (evs : List WaitStatus),
      s.exit_info = ExitInfoRecord.setMany (ExitInfoRecord.new 128) ws →
      ws.length < 128 → (∀ w ∈ ws, w.1 ≠ 0) →
      s.get_exit_code (ChildId.mk 0 pid) evs = (s, Except.ok 0)) := by
  constructor
  · intro ws hlen hnz
    exact ring_get_zero 128 (by norm_num) ws hlen hnz
  · intro s ws pid evs hring hlen hnz
    unfold Supervisor.get_exit_code
    have hget : s.exit_info.get (ChildId.mk 0 pid).id = some 0 := by
      rw [hring]
      exact ring_get_zero 128 (by norm_num) ws hlen hnz
    rw [hget]

/-- Witness for C10: a supervisor that has recorded one exit `(seq 1, code 5)`
answers `Ok 0` for the never-spawned seq 0, whatever the OS would say. -/
theorem C10_witness :
    Supervisor.get_exit_code
      { next_child_id := 2, running_children := [(77, 1)],
        exit_info := ExitInfoRecord.setMany (ExitInfoRecord.new 128) [(1, 5)] }
      (ChildId.mk 0 42) [WaitStatus.stillAlive]
      = ({ next_child_id := 2, running_children := [(77, 1)],
           exit_info := ExitInfoRecord.setMany (ExitInfoRecord.new 128) [(1, 5)] },
         Except.ok 0) :=
  C10_seq_zero_phantom_exit_code.2 _ [(1, 5)] 42 [WaitStatus.stillAlive]
    rfl (by norm_num) (by decide)

/-! ## Lemmas: supervisor wait loop and kill -/

lemma lookupPid_removePid (m : List (Int × Nat)) (p : Int) :
    lookupPid (removePid m p) p = none := by
  unfold lookupPid
  have hnone : (removePid m p).find? (fun e => e.1 == p) = none := by
    rw [List.find?_eq_none]
    intro x hx
    have hmem := List.of_mem_filter hx
    simp at hmem ⊢
    exact hmem
  rw [hnone]
  rfl

lemma find?_set_of_none {α : Type} (p : α → Bool) (l : List α) (x : α)
    (hall : ∀ e ∈ l, ¬ p e = true) (hx : p x = true) :
    ∀ m, m < l.length → (l.set m x).find? p = some x := by
  induction l with
  | nil => intro m hm; simp at hm
  | cons y ys ih =>
      intro m hm
      cases m with
      | zero =>
          simp only [List.set]
          rw [List.find?_cons_of_pos _ hx]
      | succ n =>
          simp only [List.set]
          rw [List.find?_cons_of_neg _ (hall y (by simp))]
          exact ih (fun e he => hall e (by simp [he])) n (by simpa using hm)

/-- After `set a c` on a ring that does not yet hold an entry for `a`, `get a`
returns `some c` (the written slot is the only match). -/
lemma get_set_self (r : ExitInfoRecord) (a : Nat) (c : Int)
    (hlen1 : r.child_ids.length = r.limit) (hlen2 : r.exit_codes.length = r.limit)
    (hstart : r.start < r.limit) (_hlim : 0 < r.limit)
    (hnone : r.get a = none) :
    (r.set a c).get a = some c := by
  have hall : ∀ e ∈ r.child_ids.zip r.exit_codes, ¬ (e.1 == a) = true := by
    unfold ExitInfoRecord.get at hnone
    intro e he
    have := List.find?_eq_none.mp (by
      cases hf : (r.child_ids.zip r.exit_codes).find? (fun e => e.1 == a) with
      | none => rfl
      | some v => rw [hf] at hnone; cases hnone) e he
    simpa using this
  have hziplen : (r.child_ids.zip r.exit_codes).length = r.limit := by
    rw [List.length_zip, hlen1, hlen2]
    omega
  unfold ExitInfoRecord.set
  by_cases hcnt : r.count < r.limit
  · rw [if_pos hcnt]
    unfold ExitInfoRecord.get
    rw [zip_set]
    rw [find?_set_of_none _ _ _ hall (by simp) r.count (by omega)]
    rfl
  · rw [if_neg hcnt]
    unfold ExitInfoRecord.get
    rw [zip_set]
    rw [find?_set_of_none _ _ _ hall (by simp) r.start (by omega)]
    rfl

/-- Ring well-formedness carried through `kill`: vector lengths match the
limit, the start index is in range, the limit is positive. -/
def ringWF (r : ExitInfoRecord) : Prop :=
  r.child_ids.length = r.limit ∧ r.exit_codes.length = r.limit ∧
  r.start < r.limit ∧ 0 < r.limit

lemma ringWF_set (r : ExitInfoRecord) (a : Nat) (c : Int) (h : ringWF r) :
    ringWF (r.set a c) := by
  obtain ⟨h1, h2, h3, h4⟩ := h
  unfold ExitInfoRecord.set
  by_cases hcnt : r.count < r.limit
  · rw [if_pos hcnt]
    exact ⟨by simpa using h1, by simpa using h2, h3, h4⟩
  · rw [if_neg hcnt]
    exact ⟨by simpa using h1, by simpa using h2, Nat.mod_lt _ h4, h4⟩

lemma waitGo_reap_pair (s : Supervisor) (cid : ChildId) (ev : WaitStatus) (enc : Int)
    (henc : reapsWith ev cid.pid = some enc)
    (hlook : lookupPid s.running_children cid.pid = some cid.id) :
    s.waitGo [ev, WaitStatus.echild]
      = ({ s with running_children := removePid s.running_children cid.pid,
                  exit_info := s.exit_info.set cid.id enc },
         [(cid.pid, cid.id, enc)], Except.ok ()) := by
  cases ev with
  | exited p c =>
      simp only [reapsWith] at henc
      by_cases hp : p = cid.pid
      · rw [if_pos hp] at henc
        injection henc with hc
        subst hp
        subst hc
        have hce : s.child_exit cid.pid c
            = Except.ok ({ s with running_children := removePid s.running_children cid.pid,
                                  exit_info := s.exit_info.set cid.id c }, cid.id) := by
          unfold Supervisor.child_exit
          rw [hlook]
        simp only [Supervisor.waitGo, hce]
      · rw [if_neg hp] at henc
        cases henc
  | signaled p g =>
      simp only [reapsWith] at henc
      by_cases hp : p = cid.pid
      · rw [if_pos hp] at henc
        injection henc with hc
        subst hp
        subst hc
        have hce : s.child_exit cid.pid (128 + g)
            = Except.ok ({ s with running_children := removePid s.running_children cid.pid,
                                  exit_info := s.exit_info.set cid.id (128 + g) }, cid.id) := by
          unfold Supervisor.child_exit
          rw [hlook]
        simp only [Supervisor.waitGo, hce]
      · rw [if_neg hp] at henc
        cases henc
  | stillAlive => cases henc
  | otherChange => cases henc
  | echild => cases henc

lemma killPollLoop_still (b : ChildBehavior) (cid : ChildId) :
    ∀ (fuel : Nat) (s : Supervisor) (i : Nat) (status : Int),
      (∀ k, k < fuel → pollEvents s b cid (i + k) = [WaitStatus.stillAlive]) →
      s.exit_info.get cid.id = none →
      killPollLoop b cid s fuel i status = (s, Except.ok status) := by
  intro fuel
  induction fuel with
  | zero => intro s i status _ _; rfl
  | succ fuel ih =>
      intro s i status hstill hget
      have h0 := hstill 0 (by omega)
      simp only [Nat.add_zero] at h0
      simp only [killPollLoop, h0]
      have hwait : s.waitGo [WaitStatus.stillAlive] = (s, [], Except.ok ()) := rfl
      rw [hwait]
      simp only [hget]
      apply ih s (i + 1) status
      · intro k hk
        have := hstill (k + 1) (by omega)
        rw [show i + 1 + k = i + (k + 1) by omega]
        exact this
      · exact hget

lemma killPollLoop_finished (b : ChildBehavior) (cid : ChildId) (code : Int) :
    ∀ (fuel : Nat) (s : Supervisor) (i : Nat) (status : Int),
      lookupPid s.running_children cid.pid = none →
      s.exit_info.get cid.id = some code →
      0 < fuel →
      killPollLoop b cid s fuel i status = (s, Except.ok code) := by
  intro fuel
  induction fuel with
  | zero => intro s i status _ _ h; omega
  | succ fuel ih =>
      intro s i status hlook hget _
      have hev : pollEvents s b cid i = [WaitStatus.echild] := by
        unfold pollEvents
        rw [hlook]
        rfl
      simp only [killPollLoop, hev]
      have hwait : s.waitGo [WaitStatus.echild] = (s, [], Except.ok ()) := rfl
      rw [hwait]
      simp only [hget]
      cases fuel with
      | zero => rfl
      | succ fuel' => exact ih s (i + 1) code hlook hget (by omega)

lemma killPollLoop_reap (b : ChildBehavior) (cid : ChildId) (t : Nat) (enc : Int)
    (hb : b.exitPoll = some t)
    (henc : reapsWith b.exitStatus cid.pid = some enc) :
    ∀ (fuel : Nat) (s : Supervisor) (i : Nat) (status : Int),
      lookupPid s.running_children cid.pid = some cid.id →
      s.exit_info.get cid.id = none →
      ringWF s.exit_info →
      i ≤ t → t < i + fuel →
      killPollLoop b cid s fuel i status
        = ({ s with running_children := removePid s.running_children cid.pid,
                    exit_info := s.exit_info.set cid.id enc }, Except.ok enc) := by
  intro fuel
  induction fuel with
  | zero => intro s i status _ _ _ _ h; omega
  | succ fuel ih =>
      intro s i status hlook hget hWF hit htw
      by_cases hti : t ≤ i
      · -- the reap happens at this poll
        have hev : pollEvents s b cid i = [b.exitStatus, WaitStatus.echild] := by
          unfold pollEvents
          rw [hlook, hb]
          simp [hti]
        simp only [killPollLoop, hev]
        rw [waitGo_reap_pair s cid b.exitStatus enc henc hlook]
        set s' : Supervisor :=
          { s with running_children := removePid s.running_children cid.pid,
                   exit_info := s.exit_info.set cid.id enc } with hs'
        have hget' : s'.exit_info.get cid.id = some enc := by
          obtain ⟨h1, h2, h3, h4⟩ := hWF
          exact get_set_self s.exit_info cid.id enc h1 h2 h3 h4 hget
        simp only [hget']
        cases fuel with
        | zero => rfl
        | succ fuel' =>
            apply killPollLoop_finished b cid enc _ s' (i + 1) enc _ hget' (by omega)
            show lookupPid (removePid s.running_children cid.pid) cid.pid = none
            exact lookupPid_removePid _ _
      · -- still alive at this poll
        have hev : pollEvents s b cid i = [WaitStatus.stillAlive] := by
          unfold pollEvents
          rw [hlook, hb]
          simp [hti]
        simp only [killPollLoop, hev]
        have hwait : s.waitGo [WaitStatus.stillAlive] = (s, [], Except.ok ()) := rfl
        rw [hwait]
        simp only [hget]
        exact ih s (i + 1) status hlook hget hWF (by omega) (by omega)

/-! ## Claim C1 -/

/-- C1: `Supervisor::kill`.  (1) If the child is still tracked as running and
the OS reports its exit at some WNOHANG poll `t` within the 100-poll (20 ms ×
2 s) window, then only SIGTERM is delivered, the child is reaped, and the
recorded exit code is returned.  (2) If the child survives the whole window,
SIGKILL is delivered, followed by a blocking reap, and the code recorded by
that reap is returned.  (3) If the child has already been reaped, the stored
code is returned and no signal is sent, the state unchanged. -/
theorem C1_kill_graceful_escalation
    (s : Supervisor) (cid : ChildId) (b : ChildBehavior)
    (hWF : ringWF s.exit_info) :
    (∀ (t : Nat) (enc : Int), b.exitPoll = some t → t < 100 →
      lookupPid s.running_children cid.pid = some cid.id →
      s.exit_info.get cid.id = none →
      reapsWith b.exitStatus cid.pid = some enc → 0 ≤ enc →
      s.kill cid b
        = ⟨{ s with running_children := removePid s.running_children cid.pid,
                    exit_info := s.exit_info.set cid.id enc },
           true, false, Except.ok enc⟩) ∧
    (∀ enc2 : Int, (b.exitPoll = none ∨ ∃ t, b.exitPoll = some t ∧ 100 ≤ t) →
      lookupPid s.running_children cid.pid = some cid.id →
      s.exit_info.get cid.id = none →
      reapsWith b.killStatus cid.pid = some enc2 →
      s.kill cid b
        = ⟨{ s with running_children := removePid s.running_children cid.pid,
                    exit_info := s.exit_info.set cid.id enc2 },
           true, true, Except.ok enc2⟩) ∧
    (∀ code : Int, lookupPid s.running_children cid.pid = none →
      s.exit_info.get cid.id = some code →
      s.kill cid b = ⟨s, false, false, Except.ok code⟩) := by
  obtain ⟨h1, h2, h3, h4⟩ := hWF
  refine ⟨?_, ?_, ?_⟩
  · intro t enc hb ht hlook hget henc hpos
    have hrun : (lookupPid s.running_children cid.pid).isSome = true := by
      rw [hlook]; rfl
    unfold Supervisor.kill
    rw [if_pos hrun]
    rw [killPollLoop_reap b cid t enc hb henc 100 s 0 (-1) hlook hget ⟨h1, h2, h3, h4⟩
      (by omega) (by omega)]
    have hget' : (s.exit_info.set cid.id enc).get cid.id = some enc :=
      get_set_self s.exit_info cid.id enc h1 h2 h3 h4 hget
    have hne : ¬ (enc = -1) := by omega
    simp only [hne, if_false, hget']
  · intro enc2 hb2 hlook hget henc2
    have hrun : (lookupPid s.running_children cid.pid).isSome = true := by
      rw [hlook]; rfl
    unfold Supervisor.kill
    rw [if_pos hrun]
    have hstill : ∀ k, k < 100 → pollEvents s b cid (0 + k) = [WaitStatus.stillAlive] := by
      intro k hk
      unfold pollEvents
      rw [hrun]
      rcases hb2 with hnone | ⟨t, hsome, hlate⟩
      · rw [hnone]
        rfl
      · rw [hsome]
        have hkt : ¬ (t ≤ 0 + k) := by omega
        simp only [if_true, hkt, if_false]
    rw [killPollLoop_still b cid 100 s 0 (-1) hstill hget]
    dsimp only
    rw [waitGo_reap_pair s cid b.killStatus enc2 henc2 hlook]
    have hget' : (s.exit_info.set cid.id enc2).get cid.id = some enc2 :=
      get_set_self s.exit_info cid.id enc2 h1 h2 h3 h4 hget
    simp only [hget']
    rw [if_pos trivial]
  · intro code hlook hget
    have hrun : (lookupPid s.running_children cid.pid).isSome = false := by
      rw [hlook]; rfl
    unfold Supervisor.kill
    rw [if_neg (by rw [hrun]; exact Bool.false_ne_true)]
    simp only [hget]

/-- Witness for C1: a single running child `(seq 1, pid 7)` that exits with
code 0 at the first poll after SIGTERM; `kill` reaps it without SIGKILL and
returns 0. -/
theorem C1_witness :
    Supervisor.kill
      { next_child_id := 2, running_children := [(7, 1)], exit_info := ExitInfoRecord.new 2 }
      (ChildId.mk 1 7)
      { exitPoll := some 0, exitStatus := WaitStatus.exited 7 0,
        killStatus := WaitStatus.signaled 7 9 }
      = ⟨{ next_child_id := 2,
           running_children := removePid [(7, 1)] 7,
           exit_info := (ExitInfoRecord.new 2).set 1 0 },
         true, false, Except.ok 0⟩ := by
  exact (C1_kill_graceful_escalation
    { next_child_id := 2, running_children := [(7, 1)], exit_info := ExitInfoRecord.new 2 }
    (ChildId.mk 1 7)
    { exitPoll := some 0, exitStatus := WaitStatus.exited 7 0,
      killStatus := WaitStatus.signaled 7 9 }
    (by refine ⟨by decide, by decide, by decide, by decide⟩)).1
    0 0 rfl (by omega) (by decide) (by decide) (by decide) (by omega)

/-! ## Lemmas: running-children map and the wait-loop trace -/

lemma find?_filter_ne (m : List (Int × Nat)) (p q : Int) (h : q ≠ p) :
    (m.filter (fun e => !(e.1 == p))).find? (fun e => e.1 == q)
      = m.find? (fun e => e.1 == q) := by
  induction m with
  | nil => rfl
  | cons e m ih =>
      by_cases he : e.1 = p
      · have hkeep : (!(e.1 == p)) = false := by simp [he]
        rw [List.filter_cons, hkeep]
        rw [if_neg Bool.false_ne_true]
        rw [List.find?_cons_of_neg _ (by simp [he]; intro hq; exact h hq.symm)]
        exact ih
      · have hkeep : (!(e.1 == p)) = true := by simp [he]
        rw [List.filter_cons, hkeep, if_pos rfl]
        by_cases heq : e.1 = q
        · rw [List.find?_cons_of_pos _ (by simp [heq]), List.find?_cons_of_pos _ (by simp [heq])]
        · rw [List.find?_cons_of_neg _ (by simp [heq]), List.find?_cons_of_neg _ (by simp [heq])]
          exact ih

lemma lookupPid_removePid_eq (m : List (Int × Nat)) (p q : Int) :
    lookupPid (removePid m p) q = if q = p then none else lookupPid m q := by
  by_cases hq : q = p
  · rw [if_pos hq, hq]
    exact lookupPid_removePid m p
  · rw [if_neg hq]
    unfold lookupPid removePid
    rw [find?_filter_ne m p q hq]

lemma lookupPid_insertPid (m : List (Int × Nat)) (p : Int) (sq : Nat) (q : Int) :
    lookupPid (insertPid m p sq) q = if q = p then some sq else lookupPid m q := by
  by_cases hq : q = p
  · subst hq
    rw [if_pos rfl]
    show Option.map (fun e => e.2) (((q, sq) :: removePid m q).find? (fun e => e.1 == q))
        = some sq
    rw [List.find?_cons_of_pos _ (by simp)]
    rfl
  · rw [if_neg hq]
    show Option.map (fun e => e.2) (((p, sq) :: removePid m p).find? (fun e => e.1 == q))
        = lookupPid m q
    rw [List.find?_cons_of_neg _ (by simp; intro hp; exact hq hp.symm)]
    show lookupPid (removePid m p) q = lookupPid m q
    rw [lookupPid_removePid_eq, if_neg hq]

lemma setMany_cons (r : ExitInfoRecord) (w : Nat × Int) (ws : List (Nat × Int)) :
    r.setMany (w :: ws) = (r.set w.1 w.2).setMany ws := rfl

lemma waitGo_spec_of_eq {s : Supervisor} {evs : List WaitStatus} {e : Except String Unit}
    (h : s.waitGo evs = (s, [], e)) :
    (s.waitGo evs).1.next_child_id = s.next_child_id ∧
    (∀ x ∈ (s.waitGo evs).2.1, (lookupPid s.running_children x.1).isSome = true) ∧
    (∀ p, lookupPid (s.waitGo evs).1.running_children p
        = if p ∈ (s.waitGo evs).2.1.map (fun x => x.1) then none
          else lookupPid s.running_children p) ∧
    (s.waitGo evs).1.exit_info
      = s.exit_info.setMany ((s.waitGo evs).2.1.map (fun x => (x.2.1, x.2.2))) := by
  rw [h]
  refine ⟨rfl, ?_, ?_, rfl⟩
  · intro x hx
    cases hx
  · intro p
    rfl

/-- Behaviour of one `Supervisor::wait` call: the seq counter is untouched,
every reap targets a pid that was in the running map, the running map loses
exactly the reaped pids, and the ring receives exactly one `(seq, code)`
record per reap, in order. -/
lemma waitGo_spec (evs : List WaitStatus) :
    ∀ s : Supervisor,
    (s.waitGo evs).1.next_child_id = s.next_child_id ∧
    (∀ x ∈ (s.waitGo evs).2.1, (lookupPid s.running_children x.1).isSome = true) ∧
    (∀ p, lookupPid (s.waitGo evs).1.running_children p
        = if p ∈ (s.waitGo evs).2.1.map (fun x => x.1) then none
          else lookupPid s.running_children p) ∧
    (s.waitGo evs).1.exit_info
      = s.exit_info.setMany ((s.waitGo evs).2.1.map (fun x => (x.2.1, x.2.2))) := by
  induction evs with
  | nil =>
      intro s
      exact waitGo_spec_of_eq rfl
  | cons ev rest ih =>
      intro s
      cases ev with
      | stillAlive => exact waitGo_spec_of_eq rfl
      | otherChange => exact waitGo_spec_of_eq rfl
      | echild => exact waitGo_spec_of_eq rfl
      | exited pid c =>
          cases hce : s.child_exit pid c with
          | error e =>
              have hred : s.waitGo (WaitStatus.exited pid c :: rest)
                  = (s, [], Except.error e) := by
                simp only [Supervisor.waitGo, hce]
              exact waitGo_spec_of_eq hred
          | ok pr =>
              obtain ⟨s', i⟩ := pr
              have hboth : lookupPid s.running_children pid = some i ∧
                  s' = { s with running_children := removePid s.running_children pid,
                                exit_info := s.exit_info.set i c } := by
                unfold Supervisor.child_exit at hce
                cases hl : lookupPid s.running_children pid with
                | none => rw [hl] at hce; cases hce
                | some j =>
                    rw [hl] at hce
                    injection hce with hpr
                    injection hpr with hs hj
                    refine ⟨by rw [hj], ?_⟩
                    rw [← hj]
                    exact hs.symm
              obtain ⟨hlook, hs'⟩ := hboth
              have hrml : ∀ q : Int, lookupPid s'.running_children q
                  = if q = pid then none else lookupPid s.running_children q := by
                intro q
                rw [hs']
                exact lookupPid_removePid_eq _ _ _
              have hred : s.waitGo (WaitStatus.exited pid c :: rest)
                  = ((s'.waitGo rest).1, (pid, i, c) :: (s'.waitGo rest).2.1,
                     (s'.waitGo rest).2.2) := by
                simp only [Supervisor.waitGo, hce]
              rw [hred]
              obtain ⟨ihnext, ihmem, ihrun, ihring⟩ := ih s'
              refine ⟨by rw [ihnext, hs'], ?_, ?_, ?_⟩
              · intro x hx
                rcases List.mem_cons.mp hx with rfl | hx'
                · rw [hlook]; rfl
                · have hthis := ihmem x hx'
                  rw [hrml x.1] at hthis
                  by_cases hxp : x.1 = pid
                  · rw [if_pos hxp] at hthis; cases hthis
                  · rw [if_neg hxp] at hthis; exact hthis
              · intro p
                rw [ihrun p, hrml p]
                simp only [List.map_cons, List.mem_cons]
                by_cases hmem : p ∈ ((s'.waitGo rest).2.1.map (fun x => x.1))
                · rw [if_pos hmem, if_pos (Or.inr hmem)]
                · rw [if_neg hmem]
                  by_cases hp : p = pid
                  · rw [if_pos hp, if_pos (Or.inl hp)]
                  · rw [if_neg hp, if_neg (by rintro (h | h); exact hp h; exact hmem h)]
              · have hring' : s'.exit_info = s.exit_info.set i c := by rw [hs']
                rw [ihring, hring']
                simp only [List.map_cons]
                rw [setMany_cons]
      | signaled pid g =>
          cases hce : s.child_exit pid (128 + g) with
          | error e =>
              have hred : s.waitGo (WaitStatus.signaled pid g :: rest)
                  = (s, [], Except.error e) := by
                simp only [Supervisor.waitGo, hce]
              exact waitGo_spec_of_eq hred
          | ok pr =>
              obtain ⟨s', i⟩ := pr
              have hboth : lookupPid s.running_children pid = some i ∧
                  s' = { s with running_children := removePid s.running_children pid,
                                exit_info := s.exit_info.set i (128 + g) } := by
                unfold Supervisor.child_exit at hce
                cases hl : lookupPid s.running_children pid with
                | none => rw [hl] at hce; cases hce
                | some j =>
                    rw [hl] at hce
                    injection hce with hpr
                    injection hpr with hs hj
                    refine ⟨by rw [hj], ?_⟩
                    rw [← hj]
                    exact hs.symm
              obtain ⟨hlook, hs'⟩ := hboth
              have hrml : ∀ q : Int, lookupPid s'.running_children q
                  = if q = pid then none else lookupPid s.running_children q := by
                intro q
                rw [hs']
                exact lookupPid_removePid_eq _ _ _
              have hred : s.waitGo (WaitStatus.signaled pid g :: rest)
                  = ((s'.waitGo rest).1, (pid, i, 128 + g) :: (s'.waitGo rest).2.1,
                     (s'.waitGo rest).2.2) := by
                simp only [Supervisor.waitGo, hce]
              rw [hred]
              obtain ⟨ihnext, ihmem, ihrun, ihring⟩ := ih s'
              refine ⟨by rw [ihnext, hs'], ?_, ?_, ?_⟩
              · intro x hx
                rcases List.mem_cons.mp hx with rfl | hx'
                · rw [hlook]; rfl
                · have hthis := ihmem x hx'
                  rw [hrml x.1] at hthis
                  by_cases hxp : x.1 = pid
                  · rw [if_pos hxp] at hthis; cases hthis
                  · rw [if_neg hxp] at hthis; exact hthis
              · intro p
                rw [ihrun p, hrml p]
                simp only [List.map_cons, List.mem_cons]
                by_cases hmem : p ∈ ((s'.waitGo rest).2.1.map (fun x => x.1))
                · rw [if_pos hmem, if_pos (Or.inr hmem)]
                · rw [if_neg hmem]
                  by_cases hp : p = pid
                  · rw [if_pos hp, if_pos (Or.inl hp)]
                  · rw [if_neg hp, if_neg (by rintro (h | h); exact hp h; exact hmem h)]
              · have hring' : s'.exit_info = s.exit_info.set i (128 + g) := by rw [hs']
                rw [ihring, hring']
                simp only [List.map_cons]
                rw [setMany_cons]

/-- Trace invariant: starting from an invariant-satisfying supervisor, after
executing any list of spawn / wait steps whose spawned pids are fresh and
pairwise distinct, a pid is in the running map iff it was spawned and not
reaped. -/
lemma execOps_inv (ops : List SupOp) :
    ∀ (s : Supervisor) (spawned reaped : List Int),
      (∀ p, (lookupPid s.running_children p).isSome = true ↔ (p ∈ spawned ∧ p ∉ reaped)) →
      (∀ p ∈ reaped, p ∈ spawned) →
      (∀ p ∈ spawnPids ops, p ∉ spawned) →
      (spawnPids ops).Nodup →
      ∀ p, (lookupPid (execOps s ops).1.running_children p).isSome = true
          ↔ (p ∈ spawned ++ spawnPids ops
             ∧ p ∉ reaped ++ (execOps s ops).2.map (fun x => x.1)) := by
  induction ops with
  | nil =>
      intro s spawned reaped hinv _ _ _ p
      simpa [execOps, spawnPids] using hinv p
  | cons op rest ih =>
      cases op with
      | spawnOp q =>
          intro s spawned reaped hinv hsub hfresh hnodup p
          have hq_not_spawned : q ∉ spawned := hfresh q (by simp [spawnPids])
          have hq_not_reaped : q ∉ reaped := fun hc => hq_not_spawned (hsub q hc)
          have hpids : spawnPids (SupOp.spawnOp q :: rest) = q :: spawnPids rest := rfl
          rw [hpids] at hnodup
          have hnodup' := List.nodup_cons.mp hnodup
          have hstep : execOps s (SupOp.spawnOp q :: rest)
              = execOps (s.spawnModel q).1 rest := rfl
          rw [hstep, hpids]
          have hinv' : ∀ p', (lookupPid (s.spawnModel q).1.running_children p').isSome = true
              ↔ (p' ∈ spawned ++ [q] ∧ p' ∉ reaped) := by
            intro p'
            have hl : lookupPid (s.spawnModel q).1.running_children p'
                = if p' = q then some s.next_child_id
                  else lookupPid s.running_children p' := lookupPid_insertPid _ _ _ _
            rw [hl]
            by_cases hp' : p' = q
            · subst hp'
              rw [if_pos rfl]
              simp [hq_not_reaped]
            · rw [if_neg hp']
              rw [hinv p']
              simp [hp']
          have hmain := ih (s.spawnModel q).1 (spawned ++ [q]) reaped hinv'
            (fun p hp => List.mem_append_left _ (hsub p hp))
            (fun p hp => by
              simp only [List.mem_append, List.mem_singleton]
              rintro (h | rfl)
              · exact hfresh p (by simp [spawnPids, hp]) h
              · exact hnodup'.1 hp)
            hnodup'.2 p
          rw [hmain]
          constructor
          · rintro ⟨h1, h2⟩
            refine ⟨?_, h2⟩
            simp only [List.mem_append, List.mem_singleton, List.mem_cons] at h1 ⊢
            tauto
          · rintro ⟨h1, h2⟩
            refine ⟨?_, h2⟩
            simp only [List.mem_append, List.mem_singleton, List.mem_cons] at h1 ⊢
            tauto
      | waitOp evs =>
          intro s spawned reaped hinv hsub hfresh hnodup p
          obtain ⟨hnext, hmem, hrun, hring⟩ := waitGo_spec evs s
          have hpids : spawnPids (SupOp.waitOp evs :: rest) = spawnPids rest := rfl
          rw [hpids] at hnodup
          have hstep : execOps s (SupOp.waitOp evs :: rest)
              = ((execOps (s.waitGo evs).1 rest).1,
                 (s.waitGo evs).2.1 ++ (execOps (s.waitGo evs).1 rest).2) := rfl
          rw [hstep, hpids]
          have hinv' : ∀ p', (lookupPid (s.waitGo evs).1.running_children p').isSome = true
              ↔ (p' ∈ spawned ∧ p' ∉ reaped ++ (s.waitGo evs).2.1.map (fun x => x.1)) := by
            intro p'
            rw [hrun p']
            by_cases hm : p' ∈ (s.waitGo evs).2.1.map (fun x => x.1)
            · rw [if_pos hm]
              simp [hm]
            · rw [if_neg hm]
              rw [hinv p']
              simp [hm]
          have hsub' : ∀ p' ∈ reaped ++ (s.waitGo evs).2.1.map (fun x => x.1),
              p' ∈ spawned := by
            intro p' hp'
            rcases List.mem_append.mp hp' with h | h
            · exact hsub p' h
            · obtain ⟨x, hx, rfl⟩ := List.mem_map.mp h
              exact ((hinv x.1).mp (hmem x hx)).1
          have hmain := ih (s.waitGo evs).1 spawned
            (reaped ++ (s.waitGo evs).2.1.map (fun x => x.1)) hinv' hsub'
            (fun p hp => hfresh p (by simp [spawnPids, hp])) hnodup p
          rw [hmain]
          simp only [List.map_append, List.mem_append]
          tauto

/-! ## Claim C6 -/

/-- C6: the wait-loop invariant.  (i)/(ii) one wait-loop step on an
`Exited(pid, code)` / `Signaled(pid, sig)` result for a running pid removes
exactly that pid's map entry and prepends exactly one reap record, with code
`code` for a natural exit and `128 + sig` for a signal death (the record is
pushed into the ring, clause (iii)); (iii) across any wait call the exit-info
ring receives exactly one `(seq, code)` record per reap, in order; (iv) from
a fresh supervisor, after any trace of spawns and waits with distinct spawned
pids, a pid is a key of the running-children map iff it has been spawned and
not yet reaped. -/
theorem C6_wait_loop_reap_invariant :
    (∀ (s s' : Supervisor) (pid c : Int) (rest : List WaitStatus) (i : Nat),
      lookupPid s.running_children pid = some i →
      s' = { s with running_children := removePid s.running_children pid,
                    exit_info := s.exit_info.set i c } →
      s.waitGo (WaitStatus.exited pid c :: rest)
        = ((s'.waitGo rest).1, (pid, i, c) :: (s'.waitGo rest).2.1, (s'.waitGo rest).2.2)) ∧
    (∀ (s s' : Supervisor) (pid g : Int) (rest : List WaitStatus) (i : Nat),
      lookupPid s.running_children pid = some i →
      s' = { s with running_children := removePid s.running_children pid,
                    exit_info := s.exit_info.set i (128 + g) } →
      s.waitGo (WaitStatus.signaled pid g :: rest)
        = ((s'.waitGo rest).1, (pid, i, 128 + g) :: (s'.waitGo rest).2.1,
           (s'.waitGo rest).2.2)) ∧
    (∀ (s : Supervisor) (evs : List WaitStatus),
      (s.waitGo evs).1.exit_info
        = s.exit_info.setMany ((s.waitGo evs).2.1.map (fun x => (x.2.1, x.2.2)))) ∧
    (∀ ops : List SupOp, (spawnPids ops).Nodup →
      ∀ p, (lookupPid (execOps Supervisor.new ops).1.running_children p).isSome = true
        ↔ (p ∈ spawnPids ops
           ∧ p ∉ (execOps Supervisor.new ops).2.map (fun x => x.1))) := by
  refine ⟨?_, ?_, ?_, ?_⟩
  · intro s s' pid c rest i hlook hs'
    subst hs'
    have hce : s.child_exit pid c
        = Except.ok ({ s with running_children := removePid s.running_children pid,
                              exit_info := s.exit_info.set i c }, i) := by
      unfold Supervisor.child_exit
      rw [hlook]
    simp only [Supervisor.waitGo, hce]
  · intro s s' pid g rest i hlook hs'
    subst hs'
    have hce : s.child_exit pid (128 + g)
        = Except.ok ({ s with running_children := removePid s.running_children pid,
                              exit_info := s.exit_info.set i (128 + g) }, i) := by
      unfold Supervisor.child_exit
      rw [hlook]
    simp only [Supervisor.waitGo, hce]
  · intro s evs
    exact (waitGo_spec evs s).2.2.2
  · intro ops hnodup p
    have h := execOps_inv ops Supervisor.new [] []
      (by intro p'; constructor
          · intro hc
            cases hc
          · rintro ⟨hc, _⟩
            cases hc)
      (by intro p' hp'; cases hp')
      (by intro p' _ hc; cases hc)
      hnodup p
    simpa using h

/-- Witness for C6: reaping the running child pid 7 (seq 1) with a signal 15
death removes it from the map and records `128 + 15 = 143` once. -/
theorem C6_witness :
    Supervisor.waitGo
      { next_child_id := 2, running_children := [(7, 1)], exit_info := ExitInfoRecord.new 2 }
      [WaitStatus.signaled 7 15, WaitStatus.echild]
      = (({ next_child_id := 2, running_children := removePid [(7, 1)] 7,
            exit_info := (ExitInfoRecord.new 2).set 1 (128 + 15) } : Supervisor),
         [(7, 1, 128 + 15)], Except.ok ()) := by
  have h := C6_wait_loop_reap_invariant.2.1
    { next_child_id := 2, running_children := [(7, 1)], exit_info := ExitInfoRecord.new 2 }
    { next_child_id := 2, running_children := removePid [(7, 1)] 7,
      exit_info := (ExitInfoRecord.new 2).set 1 (128 + 15) }
    7 15 [WaitStatus.echild] 1 (by decide) rfl
  rw [h]
  rfl

/-! ## Claims C2, C4, C8 (server request handling) -/

/-- C2 (corrected): `handle_run_request` takes the interpreter out of the
hot-spare slot before sending.  On a successful `sendmsg` the server's handle
is dropped only after the send (the fd-event trace is exactly
`[sent, dropped]`).  But if the send fails, the handler propagates the error
with the handle already dropped and the slot left empty: the fd is closed
without ever having been transferred, and no respawn happens.  The original
claim's assertion that the server still holds the interpreter after a failed
send is refuted by `C2_counterexample`. -/
theorem C2_take_fd_drop_discipline
    (st : ServerSt) (interp : InterpreterState)
    (h : st.current_interpreter = some interp) :
    (∀ (n : Nat) (sp : Except String InterpreterState),
      (handle_run_request st (Except.ok n) sp).2.1
        = [FdEvent.sentFds [interp.pty_master_fd],
           FdEvent.droppedFd interp.pty_master_fd]) ∧
    (∀ (e : String) (sp : Except String InterpreterState),
      handle_run_request st (Except.error e) sp
        = ({ st with current_interpreter := none },
           [FdEvent.droppedFd interp.pty_master_fd], [],
           Except.error "Failed to sendmsg")) := by
  constructor
  · intro n sp
    simp only [handle_run_request, h]
    cases sp <;> rfl
  · intro e sp
    simp only [handle_run_request, h]

/-- Counterexample to C2 as stated: with a hot spare `(pid 7, fd 5)` present
and the ancillary send failing, the handler returns with the slot empty and
the only fd event a drop of fd 5 — the fd was closed without having been
sent, so it is lost and the server no longer holds the interpreter. -/
theorem C2_counterexample :
    handle_run_request
        { current_interpreter := some { pid := 7, pty_master_fd := 5 }, prelude_code := none }
        (Except.error "EPIPE") (Except.ok { pid := 8, pty_master_fd := 6 })
      = ({ current_interpreter := none, prelude_code := none },
         [FdEvent.droppedFd 5], [], Except.error "Failed to sendmsg") ∧
    FdEvent.sentFds [5] ∉ [FdEvent.droppedFd 5] := by
  exact ⟨rfl, by decide⟩

/-- Witness for C2: on the success path with the same hot spare, the send
event precedes the drop event. -/
theorem C2_witness :
    (handle_run_request
        { current_interpreter := some { pid := 7, pty_master_fd := 5 }, prelude_code := none }
        (Except.ok 2) (Except.ok { pid := 8, pty_master_fd := 6 })).2.1
      = [FdEvent.sentFds [5], FdEvent.droppedFd 5] :=
  (C2_take_fd_drop_discipline
    { current_interpreter := some { pid := 7, pty_master_fd := 5 }, prelude_code := none }
    { pid := 7, pty_master_fd := 5 } rfl).1 2 (Except.ok { pid := 8, pty_master_fd := 6 })

/-- C4 (corrected): after a `TAKE` (`RUN`) whose send succeeds *and* whose
replacement spawn succeeds, the hot-spare slot holds the fresh interpreter
when the handler returns, and the accept loop hands exactly that state to the
next connection.  If the respawn fails the slot stays empty
(`C4_counterexample`), so the original unconditional claim is false. -/
theorem C4_take_refills_slot
    (st : ServerSt) (interp fresh : InterpreterState) (c : Conn) (cs : List Conn)
    (hi : st.current_interpreter = some interp)
    (hread : c.readLen ≠ 0) (htrim : trimString c.request = "RUN")
    (hsend : ∃ n, c.sendResult = Except.ok n)
    (hspawn : c.spawnResult = Except.ok fresh) :
    (handleConn st c).1.current_interpreter = some fresh ∧
    runLoop st (c :: cs)
      = ((runLoop (handleConn st c).1 cs).1,
         ((handleConn st c).2.1, (handleConn st c).2.2)
           :: (runLoop (handleConn st c).1 cs).2) := by
  obtain ⟨n, hsend⟩ := hsend
  constructor
  · have hrr : handleReq st c
        = ({ st with current_interpreter := some fresh },
           [FdEvent.sentFds [interp.pty_master_fd],
            FdEvent.droppedFd interp.pty_master_fd], [], Except.ok ()) := by
      simp only [handleReq]
      rw [if_neg hread, htrim]
      rw [show (startsWithStr "RUN" "INIT ") = false from by decide, if_neg Bool.false_ne_true]
      rw [if_pos rfl]
      rw [hsend, hspawn]
      simp only [handle_run_request, hi]
    simp only [handleConn, hrr]
  · rfl

/-- Counterexample to C4 as stated: the send succeeds (the fds went to the
client) but the replacement spawn fails, and the handler returns to the
accept loop with an empty hot-spare slot. -/
theorem C4_counterexample :
    (handleConn
        { current_interpreter := some { pid := 7, pty_master_fd := 5 }, prelude_code := none }
        { readLen := 3, request := "RUN", sendResult := Except.ok 2,
          spawnResult := Except.error "Failed to open PTY master",
          waitResult := WaitStatus.stillAlive }).1.current_interpreter = none ∧
    FdEvent.sentFds [5] ∈
      (handleConn
        { current_interpreter := some { pid := 7, pty_master_fd := 5 }, prelude_code := none }
        { readLen := 3, request := "RUN", sendResult := Except.ok 2,
          spawnResult := Except.error "Failed to open PTY master",
          waitResult := WaitStatus.stillAlive }).2.1 := by
  exact ⟨by decide, by decide⟩

/-- Witness for C4: a concrete `RUN` connection with successful send and
respawn leaves the fresh interpreter in the slot for the next accept. -/
theorem C4_witness :
    (handleConn
        { current_interpreter := some { pid := 7, pty_master_fd := 5 }, prelude_code := none }
        { readLen := 3, request := "RUN", sendResult := Except.ok 2,
          spawnResult := Except.ok { pid := 8, pty_master_fd := 6 },
          waitResult := WaitStatus.stillAlive }).1.current_interpreter
      = some { pid := 8, pty_master_fd := 6 } :=
  (C4_take_refills_slot
    { current_interpreter := some { pid := 7, pty_master_fd := 5 }, prelude_code := none }
    { pid := 7, pty_master_fd := 5 } { pid := 8, pty_master_fd := 6 }
    { readLen := 3, request := "RUN", sendResult := Except.ok 2,
      spawnResult := Except.ok { pid := 8, pty_master_fd := 6 },
      waitResult := WaitStatus.stillAlive } []
    rfl (by decide) (by decide) ⟨2, rfl⟩ rfl).1

/-- C8 (corrected): a request matching no known command prefix is answered
with the bytes `"UNKNOWN"` (not `"ERROR: Unknown command"`, refuted by
`C8_counterexample`); any error from a request handler is caught by the
accept loop, formatted `"ERROR: <message>\n"` and written back; and the loop
never exits — it produces one response record per accepted connection. -/
theorem C8_dispatch_error_handling :
    (∀ (st : ServerSt) (c : Conn), c.readLen ≠ 0 →
      startsWithStr (trimString c.request) "INIT " = false →
      trimString c.request ≠ "RUN" →
      startsWithStr (trimString c.request) "EXITCODE " = false →
      handleConn st c = (st, [], ["UNKNOWN"])) ∧
    (∀ (st st' : ServerSt) (c : Conn) (evs : List FdEvent) (ws : List String) (e : String),
      handleReq st c = (st', evs, ws, Except.error e) →
      handleConn st c = (st', evs, ws ++ ["ERROR: " ++ e ++ "\n"])) ∧
    (∀ (st : ServerSt) (conns : List Conn), (runLoop st conns).2.length = conns.length) := by
  refine ⟨?_, ?_, ?_⟩
  · intro st c hread h1 h2 h3
    simp only [handleConn, handleReq, hread, h1, h2, h3, Bool.false_eq_true, if_false,
      if_neg h2]
  · intro st st' c evs ws e h
    simp only [handleConn, h]
  · intro st conns
    induction conns generalizing st with
    | nil => rfl
    | cons c cs ih =>
        simp only [runLoop, List.length_cons]
        rw [ih]

/-- Counterexample to C8 as stated: the unknown command `"HELLO"` is answered
with `"UNKNOWN"`, which is not the claimed `"ERROR: Unknown command"`. -/
theorem C8_counterexample :
    handleConn { current_interpreter := none, prelude_code := none }
      { readLen := 5, request := "HELLO", sendResult := Except.ok 0,
        spawnResult := Except.error "x", waitResult := WaitStatus.stillAlive }
      = ({ current_interpreter := none, prelude_code := none }, [], ["UNKNOWN"]) ∧
    ("UNKNOWN" : String) ≠ "ERROR: Unknown command" := by
  exact ⟨by decide, by decide⟩

/-- Witness for C8: the unknown command `"LIST"`, a failing `INIT` whose error
is echoed as an `ERROR:` line, and a two-connection run producing two
responses. -/
theorem C8_witness :
    handleConn { current_interpreter := none, prelude_code := none }
      { readLen := 4, request := "LIST", sendResult := Except.ok 0,
        spawnResult := Except.ok { pid := 8, pty_master_fd := 6 },
        waitResult := WaitStatus.stillAlive }
      = ({ current_interpreter := none, prelude_code := none }, [], ["UNKNOWN"]) ∧
    (runLoop { current_interpreter := none, prelude_code := none }
      [{ readLen := 4, request := "LIST", sendResult := Except.ok 0,
         spawnResult := Except.ok { pid := 8, pty_master_fd := 6 },
         waitResult := WaitStatus.stillAlive },
       { readLen := 3, request := "RUN", sendResult := Except.ok 2,
         spawnResult := Except.ok { pid := 8, pty_master_fd := 6 },
         waitResult := WaitStatus.stillAlive }]).2.length = 2 :=
  ⟨C8_dispatch_error_handling.1 { current_interpreter := none, prelude_code := none }
      { readLen := 4, request := "LIST", sendResult := Except.ok 0,
        spawnResult := Except.ok { pid := 8, pty_master_fd := 6 },
        waitResult := WaitStatus.stillAlive }
      (by decide) (by decide) (by decide) (by decide),
   C8_dispatch_error_handling.2.2 { current_interpreter := none, prelude_code := none } _⟩

/-! ## Claim C7 -/

/-- C7 (code bug evidenced at the failing input): in the proxy loop of
src/hsclient/proxy.rs, a stdin EOF closes the *whole* PTY master fd (not just
a write side) and stdin keeps being polled and read (the `TODO: no longer
read from stdin` is unimplemented).  On the wake sequence "stdin EOF, then a
wake with 3 bytes of PTY output pending and stdin readable", the loop reads
stdin a second time after EOF, closes the fd again, and the pending PTY
output is never forwarded (no `writeStdout`), the loop not ending in
`ptyEof`. -/
theorem C7_stdin_eof_divergence :
    do_proxy_loop
      [{ signalReady := false, ptyReady := false, stdinReady := true,
         ptyReadLen := 0, stdinReadLen := 0 },
       { signalReady := false, ptyReady := true, stdinReady := true,
         ptyReadLen := 3, stdinReadLen := 0 }]
      = ([PAct.readStdin 0, PAct.closePtyFd, PAct.readStdin 0, PAct.closePtyFd],
         ProxyEnd.ranOut) ∧
    PAct.writeStdout 3 ∉
      (do_proxy_loop
        [{ signalReady := false, ptyReady := false, stdinReady := true,
           ptyReadLen := 0, stdinReadLen := 0 },
         { signalReady := false, ptyReady := true, stdinReady := true,
           ptyReadLen := 3, stdinReadLen := 0 }]).1 := by
  exact ⟨by decide, by decide⟩

/-! ## Lemmas: pid-file filesystem model -/

lemma find?_filterOut {ν : Type} (m : List (String × ν)) (p q : String) (h : q ≠ p) :
    (m.filter (fun e => !(e.1 == p))).find? (fun e => e.1 == q)
      = m.find? (fun e => e.1 == q) := by
  induction m with
  | nil => rfl
  | cons e m ih =>
      by_cases he : e.1 = p
      · have hkeep : (!(e.1 == p)) = false := by simp [he]
        rw [List.filter_cons, hkeep]
        rw [if_neg Bool.false_ne_true]
        rw [List.find?_cons_of_neg _ (by simp [he]; intro hq; exact h hq.symm)]
        exact ih
      · have hkeep : (!(e.1 == p)) = true := by simp [he]
        rw [List.filter_cons, hkeep, if_pos rfl]
        by_cases heq : e.1 = q
        · rw [List.find?_cons_of_pos _ (by simp [heq]), List.find?_cons_of_pos _ (by simp [heq])]
        · rw [List.find?_cons_of_neg _ (by simp [heq]), List.find?_cons_of_neg _ (by simp [heq])]
          exact ih

lemma lookupPath_filterOut (fs : FS) (p q : String) :
    FS.lookupPath ⟨fs.files.filter (fun e => !(e.1 == p))⟩ q
      = if q = p then none else fs.lookupPath q := by
  by_cases hq : q = p
  · rw [if_pos hq]
    subst hq
    unfold FS.lookupPath
    have hnone : (fs.files.filter (fun e => !(e.1 == q))).find? (fun e => e.1 == q)
        = none := by
      rw [List.find?_eq_none]
      intro x hx
      have hmem := List.of_mem_filter hx
      simp at hmem ⊢
      exact hmem
    rw [hnone]
    rfl
  · rw [if_neg hq]
    unfold FS.lookupPath
    rw [find?_filterOut fs.files p q hq]

lemma lookupPath_writeFile (fs : FS) (p : String) (c : String) (q : String) :
    (fs.writeFile p c).lookupPath q = if q = p then some c else fs.lookupPath q := by
  by_cases hq : q = p
  · rw [if_pos hq]
    show Option.map (fun e => e.2)
        (((p, c) :: fs.files.filter (fun e => !(e.1 == p))).find? (fun e => e.1 == q)) = some c
    rw [List.find?_cons_of_pos _ (by simp [hq])]
    rfl
  · rw [if_neg hq]
    show Option.map (fun e => e.2)
        (((p, c) :: fs.files.filter (fun e => !(e.1 == p))).find? (fun e => e.1 == q))
        = fs.lookupPath q
    rw [List.find?_cons_of_neg _ (by simp; intro hp; exact hq hp.symm)]
    show FS.lookupPath ⟨fs.files.filter (fun e => !(e.1 == p))⟩ q = fs.lookupPath q
    rw [lookupPath_filterOut, if_neg hq]

lemma removeFile_lookup (fs : FS) (p : String) (h : fs.pathPresent p = true) :
    ∃ fs', fs.removeFile p = some fs' ∧
      (∀ q, fs'.lookupPath q = if q = p then none else fs.lookupPath q) := by
  refine ⟨⟨fs.files.filter (fun e => !(e.1 == p))⟩, ?_, ?_⟩
  · unfold FS.removeFile
    rw [if_pos h]
  · intro q
    exact lookupPath_filterOut fs p q

lemma acqStep_noop (alive : Int → Bool) (fs : FS) (l : AcqLocal) (st : AcqStep)
    (h : l.result.isSome = true) : acqStep alive fs l st = (fs, l) := by
  cases st <;> simp [acqStep, h]

lemma runAcq_steps (alive : Int → Bool) (fs : FS) (pid : Int) (path : String)
    (r1 r2 r3 r4 r5 : FS × AcqLocal)
    (h1 : acqStep alive fs (AcqLocal.init pid path) AcqStep.readPath = r1)
    (h2 : acqStep alive r1.1 r1.2 AcqStep.maybeRemove = r2)
    (h3 : acqStep alive r2.1 r2.2 AcqStep.writeTmp = r3)
    (h4 : acqStep alive r3.1 r3.2 AcqStep.linkStep = r4)
    (h5 : acqStep alive r4.1 r4.2 AcqStep.unlinkTmp = r5) :
    runAcq alive fs pid path = r5 := by
  unfold runAcq acqProgram
  simp only [List.foldl_cons, List.foldl_nil]
  rw [h1, h2, h3, h4, h5]

/-- The `test` part of `PidFileGuard::new` on a pidfile naming a live
process: the first step aborts with the already-running error. -/
lemma acqStep_read_live (alive : Int → Bool) (fs : FS) (pid other : Int)
    (path contents : String)
    (hlook : fs.lookupPath path = some contents)
    (hparse : rustParseI32 (trimString contents) = some other)
    (halive : alive other = true) :
    acqStep alive fs (AcqLocal.init pid path) AcqStep.readPath
      = (fs, { AcqLocal.init pid path with
               result := some (Except.error "file exists for running process") }) := by
  simp only [acqStep, AcqLocal.init, Option.isSome_none, Bool.false_eq_true, if_false,
    hlook, hparse, halive, if_true]

/-- The `test` part on an absent pidfile: no removal decision, nothing else. -/
lemma acqStep_read_absent (alive : Int → Bool) (fs : FS) (pid : Int) (path : String)
    (hlook : fs.lookupPath path = none) :
    acqStep alive fs (AcqLocal.init pid path) AcqStep.readPath
      = (fs, { AcqLocal.init pid path with decision := some false }) := by
  simp only [acqStep, AcqLocal.init, Option.isSome_none, Bool.false_eq_true, if_false, hlook]

lemma acqStep_remove_skip (alive : Int → Bool) (fs : FS) (l : AcqLocal)
    (hres : l.result = none) (hdec : l.decision = some false) :
    acqStep alive fs l AcqStep.maybeRemove = (fs, l) := by
  simp [acqStep, hres, hdec]

lemma acqStep_write_tmp (alive : Int → Bool) (fs : FS) (l : AcqLocal)
    (hres : l.result = none) :
    acqStep alive fs l AcqStep.writeTmp
      = (fs.writeFile (tmpPidPath l.path l.pid) (pidfileContents l.pid), l) := by
  simp [acqStep, hres]

lemma acqStep_link (alive : Int → Bool) (fs : FS) (l : AcqLocal)
    (hres : l.result = none) (hdst : fs.lookupPath l.path = none)
    (c : String) (hsrc : fs.lookupPath (tmpPidPath l.path l.pid) = some c) :
    acqStep alive fs l AcqStep.linkStep
      = (fs.writeFile l.path c, { l with linkOk := some true }) := by
  simp [acqStep, hres, FS.hardLink, FS.pathPresent, hdst, hsrc]

lemma acqStep_link_fail (alive : Int → Bool) (fs : FS) (l : AcqLocal)
    (hres : l.result = none) (c : String) (hdst : fs.lookupPath l.path = some c) :
    acqStep alive fs l AcqStep.linkStep = (fs, { l with linkOk := some false }) := by
  simp [acqStep, hres, FS.hardLink, FS.pathPresent, hdst]

lemma acqStep_unlink (alive : Int → Bool) (fs : FS) (l : AcqLocal)
    (hres : l.result = none)
    (hpres : fs.pathPresent (tmpPidPath l.path l.pid) = true) :
    acqStep alive fs l AcqStep.unlinkTmp
      = (⟨fs.files.filter (fun e => !(e.1 == tmpPidPath l.path l.pid))⟩,
         { l with result := some (if l.linkOk = some true then Except.ok ()
                                  else Except.error "hard_link error") }) := by
  simp [acqStep, hres, FS.removeFile, hpres]

/-- C9: `PidFileGuard::new` / `PidFileGuard::test` (src/hsserver/daemon.rs
lines 94-137).  (a) When the pidfile names a live process, acquisition fails
with the already-running error and the filesystem is untouched.  (b) From a
state with no pidfile at the path, an uninterfered acquisition succeeds: the
pid is written through the sibling `.pid.<pid>` temp file, published at the
path by `hard_link`, and the temp file is unlinked.  (c) If another process
publishes the path between the temp write and the `hard_link`, the call
returns the hard-link error, leaves the other's file intact, and still unlinks
the temp file.  (d) Starting with no pidfile on disk, no interleaving of two
acquisitions lets both succeed. -/
theorem C9_pidfile_single_instance :
    (∀ (alive : Int → Bool) (fs : FS) (pid other : Int) (path contents : String),
      fs.lookupPath path = some contents →
      rustParseI32 (trimString contents) = some other →
      alive other = true →
      runAcq alive fs pid path
        = (fs, { AcqLocal.init pid path with
                 result := some (Except.error "file exists for running process") })) ∧
    (∀ (alive : Int → Bool) (fs : FS) (pid : Int) (path : String),
      fs.lookupPath path = none → tmpPidPath path pid ≠ path →
      (runAcq alive fs pid path).2.result = some (Except.ok ()) ∧
      (runAcq alive fs pid path).1.lookupPath path = some (pidfileContents pid) ∧
      (runAcq alive fs pid path).1.lookupPath (tmpPidPath path pid) = none) ∧
    (∀ (alive : Int → Bool) (fsMid : FS) (pid : Int) (path c : String),
      fsMid.lookupPath (tmpPidPath path pid) = some (pidfileContents pid) →
      tmpPidPath path pid ≠ path →
      ∀ l1 r4 r5, l1 = { AcqLocal.init pid path with decision := some false } →
      acqStep alive (fsMid.writeFile path c) l1 AcqStep.linkStep = r4 →
      acqStep alive r4.1 r4.2 AcqStep.unlinkTmp = r5 →
      r5.2.result = some (Except.error "hard_link error") ∧
      r5.1.lookupPath path = some c ∧
      r5.1.lookupPath (tmpPidPath path pid) = none) ∧
    (∀ tr ∈ merges (acqProgram.map (fun st => ((false : Bool), st)))
                   (acqProgram.map (fun st => ((true : Bool), st))),
      bothOk (execTagged (fun _ => true)
        (⟨[]⟩, AcqLocal.init 1 "p", AcqLocal.init 2 "p") tr) = false) := by
  refine ⟨?_, ?_, ?_, ?_⟩
  · intro alive fs pid other path contents hlook hparse halive
    have h1 := acqStep_read_live alive fs pid other path contents hlook hparse halive
    have hn : ∀ st, acqStep alive fs
        { AcqLocal.init pid path with
          result := some (Except.error "file exists for running process") } st
        = (fs, { AcqLocal.init pid path with
                 result := some (Except.error "file exists for running process") }) :=
      fun st => acqStep_noop _ _ _ st rfl
    exact runAcq_steps alive fs pid path _ _ _ _ _ h1 (hn _) (hn _) (hn _) (hn _)
  · intro alive fs pid path hlook htmp
    have h1 : acqStep alive fs (AcqLocal.init pid path) AcqStep.readPath
        = (fs, { AcqLocal.init pid path with decision := some false }) :=
      acqStep_read_absent alive fs pid path hlook
    have h2 : acqStep alive fs { AcqLocal.init pid path with decision := some false }
        AcqStep.maybeRemove
        = (fs, { AcqLocal.init pid path with decision := some false }) :=
      acqStep_remove_skip _ _ _ rfl rfl
    have h3 : acqStep alive fs { AcqLocal.init pid path with decision := some false }
        AcqStep.writeTmp
        = (fs.writeFile (tmpPidPath path pid) (pidfileContents pid),
           { AcqLocal.init pid path with decision := some false }) :=
      acqStep_write_tmp _ _ _ rfl
    have hsrc : (fs.writeFile (tmpPidPath path pid) (pidfileContents pid)).lookupPath
        (tmpPidPath path pid) = some (pidfileContents pid) := by
      rw [lookupPath_writeFile, if_pos rfl]
    have hdst : (fs.writeFile (tmpPidPath path pid) (pidfileContents pid)).lookupPath path
        = none := by
      rw [lookupPath_writeFile, if_neg (fun h => htmp h.symm), hlook]
    have h4 : acqStep alive (fs.writeFile (tmpPidPath path pid) (pidfileContents pid))
        { AcqLocal.init pid path with decision := some false } AcqStep.linkStep
        = ((fs.writeFile (tmpPidPath path pid) (pidfileContents pid)).writeFile path
             (pidfileContents pid),
           { AcqLocal.init pid path with
               decision := some false, linkOk := some true }) :=
      acqStep_link _ _ _ rfl hdst _ hsrc
    have hpres : ((fs.writeFile (tmpPidPath path pid) (pidfileContents pid)).writeFile path
        (pidfileContents pid)).pathPresent (tmpPidPath path pid) = true := by
      unfold FS.pathPresent
      rw [lookupPath_writeFile, if_neg htmp, hsrc]
      rfl
    have h5 : acqStep alive ((fs.writeFile (tmpPidPath path pid) (pidfileContents pid)).writeFile
          path (pidfileContents pid))
        { AcqLocal.init pid path with
            decision := some false, linkOk := some true }
        AcqStep.unlinkTmp
        = (⟨((fs.writeFile (tmpPidPath path pid) (pidfileContents pid)).writeFile path
              (pidfileContents pid)).files.filter (fun e => !(e.1 == tmpPidPath path pid))⟩,
           { AcqLocal.init pid path with
               decision := some false, linkOk := some true,
               result := some (Except.ok ()) }) :=
      acqStep_unlink _ _ _ rfl hpres
    have hrun := runAcq_steps alive fs pid path _ _ _ _ _ h1 h2 h3 h4 h5
    rw [hrun]
    refine ⟨rfl, ?_, ?_⟩
    · dsimp only
      rw [lookupPath_filterOut, if_neg (fun h => htmp h.symm),
        lookupPath_writeFile, if_pos rfl]
    · dsimp only
      rw [lookupPath_filterOut, if_pos rfl]
  · intro alive fsMid pid path c hsrcMid htmp l1 r4 r5 hl1 hr4 hr5
    subst hl1
    subst hr4
    subst hr5
    have hdst : (fsMid.writeFile path c).lookupPath path = some c := by
      rw [lookupPath_writeFile, if_pos rfl]
    have h4 : acqStep alive (fsMid.writeFile path c)
        { AcqLocal.init pid path with decision := some false } AcqStep.linkStep
        = (fsMid.writeFile path c,
           { AcqLocal.init pid path with
               decision := some false, linkOk := some false }) :=
      acqStep_link_fail _ _ _ rfl c hdst
    rw [h4]
    have hpresM : (fsMid.writeFile path c).pathPresent (tmpPidPath path pid) = true := by
      unfold FS.pathPresent
      rw [lookupPath_writeFile, if_neg htmp, hsrcMid]
      rfl
    have h5 : acqStep alive ((fsMid.writeFile path c,
          ({ AcqLocal.init pid path with
               decision := some false, linkOk := some false } : AcqLocal)) : FS × AcqLocal).1
        ((fsMid.writeFile path c,
          ({ AcqLocal.init pid path with
               decision := some false, linkOk := some false } : AcqLocal)) : FS × AcqLocal).2
        AcqStep.unlinkTmp
        = (⟨(fsMid.writeFile path c).files.filter (fun e => !(e.1 == tmpPidPath path pid))⟩,
           { AcqLocal.init pid path with
               decision := some false, linkOk := some false,
               result := some (Except.error "hard_link error") }) :=
      acqStep_unlink _ _ _ rfl hpresM
    rw [h5]
    refine ⟨rfl, ?_, ?_⟩
    · dsimp only
      rw [lookupPath_filterOut, if_neg (fun h => htmp h.symm),
        lookupPath_writeFile, if_pos rfl]
    · dsimp only
      rw [lookupPath_filterOut, if_pos rfl]
  · decide

/-- Witness for C9: a live pidfile aborts acquisition; from an empty
filesystem acquisition succeeds and publishes the pidfile; one concrete
interleaving of two acquisitions from an empty filesystem does not let both
succeed. -/
theorem C9_witness :
    runAcq (fun p => p == 7) ⟨[("p", "7\n")]⟩ 1 "p"
      = (⟨[("p", "7\n")]⟩,
         { AcqLocal.init 1 "p" with
           result := some (Except.error "file exists for running process") }) ∧
    (runAcq (fun _ => false) ⟨[]⟩ 1 "p").2.result = some (Except.ok ()) ∧
    (runAcq (fun _ => false) ⟨[]⟩ 1 "p").1.lookupPath "p" = some (pidfileContents 1) ∧
    bothOk (execTagged (fun _ => true)
      (⟨[]⟩, AcqLocal.init 1 "p", AcqLocal.init 2 "p")
      ((acqProgram.map (fun st => ((false : Bool), st))) ++
       (acqProgram.map (fun st => ((true : Bool), st))))) = false :=
  ⟨C9_pidfile_single_instance.1 (fun p => p == 7) ⟨[("p", "7\n")]⟩ 1 7 "p" "7\n"
     (by decide) (by decide) (by decide),
   (C9_pidfile_single_instance.2.1 (fun _ => false) ⟨[]⟩ 1 "p" (by decide) (by decide)).1,
   (C9_pidfile_single_instance.2.1 (fun _ => false) ⟨[]⟩ 1 "p" (by decide) (by decide)).2.1,
   C9_pidfile_single_instance.2.2.2 _ (by decide)⟩

/-- Counterexample to C9 as stated: with a stale pidfile (naming dead pid 999)
on disk, the stale-removal race lets two interleaved acquisitions both
succeed.  Both read the stale file and decide to remove it; caller A removes
it, writes its temp file and publishes via `hard_link`; then caller B's
deferred removal deletes A's freshly published pidfile, so B's `hard_link`
also succeeds and both calls return Ok. -/
theorem C9_counterexample :
    [((false : Bool), AcqStep.readPath), (true, AcqStep.readPath),
     (false, AcqStep.maybeRemove), (false, AcqStep.writeTmp), (false, AcqStep.linkStep),
     (true, AcqStep.maybeRemove), (true, AcqStep.writeTmp), (true, AcqStep.linkStep),
     (false, AcqStep.unlinkTmp), (true, AcqStep.unlinkTmp)]
      ∈ merges (acqProgram.map (fun st => ((false : Bool), st)))
               (acqProgram.map (fun st => ((true : Bool), st))) ∧
    bothOk (execTagged (fun p => (p == 1) || (p == 2))
      (⟨[("p", "999\n")]⟩, AcqLocal.init 1 "p", AcqLocal.init 2 "p")
      [((false : Bool), AcqStep.readPath), (true, AcqStep.readPath),
       (false, AcqStep.maybeRemove), (false, AcqStep.writeTmp), (false, AcqStep.linkStep),
       (true, AcqStep.maybeRemove), (true, AcqStep.writeTmp), (true, AcqStep.linkStep),
       (false, AcqStep.unlinkTmp), (true, AcqStep.unlinkTmp)]) = true := by
  exact ⟨by decide, by decide⟩

end PyHotstart
